import Mathlib

/-!
Verification of the rebinded input-dispatch pipeline against its design
specification.  The Rust source is shallowly embedded: hash maps become
association lists, `Instant` becomes a `Nat` millisecond clock passed to each
operation, the tokio timer/oneshot channels become an explicit message queue
plus effect logs, and fallible operations return `Option`/`Except`.
-/

namespace Rebinded

/-- Platform-native key code: a `u32` opaque to the core (src/key.rs). -/
structure KeyCode where
  code : Nat
deriving DecidableEq

/-- Available actions that can be bound to keys (src/config/types.rs, `enum Action`). -/
inductive Action where
  | mediaPlayPause
  | mediaNext
  | mediaPrevious
  | mediaStop
  | volumeUp
  | volumeDown
  | volumeMute
  | browserBack
  | browserForward
  | passthrough
  | block
deriving DecidableEq

/-- Response from the event handler (src/platform/mod.rs, `enum EventResponse`). -/
inductive EventResponse where
  | block
  | passthrough
deriving DecidableEq

/-- Modelled from the spec: `InputEvent` is either `Key{code, down}` or
`Scroll{up}` (§3 data model).  Its Rust definition is not among the provided
source files; only its uses (main.rs, gated_hold.rs) are. -/
inductive InputEvent where
  | key (key : KeyCode) (down : Bool)
  | scroll (up : Bool)
deriving DecidableEq

/-- Modelled from the spec: `InputEventId` has the same shape as `InputEvent`
minus `down` for `Key` (§3 data model).  Definition absent from the provided
sources; uses in gated_hold.rs and main.rs fix this shape. -/
inductive InputEventId where
  | key (key : KeyCode)
  | scroll (up : Bool)
deriving DecidableEq

/-- Modelled from the spec: `event.id()` derives the routing key from an event
(§4.2 step 1, used at main.rs:94). -/
def InputEvent.id : InputEvent → InputEventId
  | .key k _ => .key k
  | .scroll u => .scroll u

/-- Modelled from the spec: the Key Registry's `code → display_name` lookup
(§4.6) is platform glue (OS-provided names); modelled as a canonical injective
name.  `GatedHoldStrategy` keys its state map by this string
(gated_hold.rs:318, `key_event.key.to_string()`). -/
def KeyCode.display_name (c : KeyCode) : String :=
  "key_" ++ toString c.code

/- Association-list helpers standing in for `std::collections::HashMap`.
`insert` replaces the existing entry or appends, `erase` removes the entry,
matching `HashMap::insert` / `HashMap::remove` on the map-as-function view. -/

namespace AList

variable {α β : Type} [DecidableEq α]

def lookup : List (α × β) → α → Option β
  | [], _ => none
  | p :: rest, k => if p.1 = k then some p.2 else lookup rest k

def insert : List (α × β) → α → β → List (α × β)
  | [], k, v => [(k, v)]
  | p :: rest, k, v => if p.1 = k then (k, v) :: rest else p :: insert rest k v

def erase : List (α × β) → α → List (α × β)
  | [], _ => []
  | p :: rest, k => if p.1 = k then erase rest k else p :: erase rest k

@[simp] theorem lookup_nil (k : α) : lookup ([] : List (α × β)) k = none := rfl

@[simp] theorem lookup_cons (p : α × β) (rest : List (α × β)) (k : α) :
    lookup (p :: rest) k = if p.1 = k then some p.2 else lookup rest k := rfl

theorem lookup_insert_self (l : List (α × β)) (k : α) (v : β) :
    lookup (insert l k v) k = some v := by
  induction l with
  | nil => simp [insert, lookup]
  | cons p rest ih =>
    by_cases h : p.1 = k
    · simp [insert, h, lookup]
    · simp [insert, h, lookup, ih]

theorem lookup_insert_ne (l : List (α × β)) (k k' : α) (v : β) (h : k ≠ k') :
    lookup (insert l k v) k' = lookup l k' := by
  induction l with
  | nil => simp [insert, lookup, h]
  | cons p rest ih =>
    by_cases hp : p.1 = k
    · simp [insert, hp, lookup, h]
    · simp [insert, hp, lookup, ih]

theorem lookup_erase_self (l : List (α × β)) (k : α) :
    lookup (erase l k) k = none := by
  induction l with
  | nil => simp [erase]
  | cons p rest ih =>
    by_cases hp : p.1 = k
    · simp [erase, hp, ih]
    · simp [erase, hp, lookup, ih]

theorem lookup_erase_ne (l : List (α × β)) (k k' : α) (h : k ≠ k') :
    lookup (erase l k) k' = lookup l k' := by
  induction l with
  | nil => simp [erase]
  | cons p rest ih =>
    by_cases hp : p.1 = k
    · simp [erase, hp, ih, h]
    · simp [erase, hp, lookup, ih]

def keys (l : List (α × β)) : List α := l.map Prod.fst

theorem mem_keys_insert (l : List (α × β)) (k : α) (v : β) (k' : α) :
    k' ∈ keys (insert l k v) ↔ k' = k ∨ k' ∈ keys l := by
  induction l with
  | nil => simp [insert, keys]
  | cons p rest ih =>
    by_cases hp : p.1 = k
    · rw [show insert (p :: rest) k v = (k, v) :: rest by simp [insert, hp]]
      simp only [keys, List.map_cons, List.mem_cons, hp]
      tauto
    · rw [show insert (p :: rest) k v = p :: insert rest k v by simp [insert, hp]]
      simp only [keys, List.map_cons, List.mem_cons]
      rw [show (k' ∈ List.map Prod.fst (insert rest k v)) ↔
            (k' = k ∨ k' ∈ keys rest) from ih]
      tauto

theorem keys_insert_nodup (l : List (α × β)) (k : α) (v : β)
    (h : (keys l).Nodup) : (keys (insert l k v)).Nodup := by
  induction l with
  | nil => simp [insert, keys]
  | cons p rest ih =>
    simp only [keys, List.map_cons, List.nodup_cons] at h
    by_cases hp : p.1 = k
    · simp only [insert, if_pos hp, keys, List.map_cons, List.nodup_cons]
      rw [← hp]
      exact ⟨h.1, h.2⟩
    · simp only [insert, if_neg hp, keys, List.map_cons, List.nodup_cons]
      refine ⟨?_, ih h.2⟩
      intro hmem
      rcases (mem_keys_insert rest k v p.1).1 hmem with hy | hy
      · exact hp hy
      · exact h.1 hy

theorem lookup_isSome_iff_mem_keys (l : List (α × β)) (k : α) :
    (lookup l k).isSome = true ↔ k ∈ keys l := by
  induction l with
  | nil => simp [lookup, keys]
  | cons p rest ih =>
    by_cases hp : p.1 = k
    · simp [lookup, hp, keys]
    · simp [lookup, hp, keys, ih, Ne.symm hp]

end AList

/-! Gated-hold strategy (src/strategy/gated_hold.rs).  `Instant` is modelled
as a `Nat` millisecond clock `now` passed to each operation; `last.elapsed()`
becomes `now - last`.  The tokio oneshot cancellation handles and the timer
mpsc channel are modelled by effect logs (`Effects`) and an explicit pending
message queue (`timer_queue`); the timer task's eventual send becomes an
explicit enqueue event. -/

/-- Configuration for gated hold behavior (gated_hold.rs, `GatedHoldConfig`);
the `HashMap` of diverts is an association list. -/
structure GatedHoldConfig where
  initial_hold_ms : Nat
  repeat_window_ms : Nat
  diverts : List (InputEventId × Action)
deriving DecidableEq

/-- Per-key state (gated_hold.rs, `enum KeyState`).  `holding` carries a
oneshot cancel sender in the source; cancellation signals are recorded in the
effect log instead. -/
inductive KeyState where
  | idle
  | holding
  | active
  | diverted
deriving DecidableEq

/-- Gated hold strategy state (gated_hold.rs, `struct GatedHoldStrategy`).
`platform_handle` records whether the `Option<PlatformHandle>` cache is
`Some`; `timer_queue` holds the undrained messages of the timer mpsc
channel (`timer_rx`). -/
structure GatedHoldStrategy where
  config : GatedHoldConfig
  key_states : List (String × KeyState)
  last_release : Option Nat
  platform_handle : Bool
  timer_queue : List String
deriving DecidableEq

/-- Side effects performed during one call: actions executed through the
platform handle, cancel signals sent to pending hold timers, and hold timers
spawned. -/
structure Effects where
  executed : List Action
  cancels : List String
  spawned : List String
deriving DecidableEq

def Effects.empty : Effects := ⟨[], [], []⟩

namespace GatedHoldStrategy

/-- `GatedHoldStrategy::new` (gated_hold.rs:76-86). -/
def new (config : GatedHoldConfig) : GatedHoldStrategy :=
  { config := config
    key_states := []
    last_release := none
    platform_handle := false
    timer_queue := [] }

/-- `subscriptions()` (gated_hold.rs:302-305): the set of divert event ids. -/
def subscriptions (s : GatedHoldStrategy) : List InputEventId :=
  s.config.diverts.map Prod.fst

/-- `any_key_held` (gated_hold.rs:89-96). -/
def any_key_held (s : GatedHoldStrategy) : Bool :=
  s.key_states.any fun kv =>
    kv.2 = KeyState.holding ∨ kv.2 = KeyState.active ∨ kv.2 = KeyState.diverted

/-- `divert_all_held_keys` (gated_hold.rs:100-126): every `Holding` or
`Active` entry becomes `Diverted`; a `Holding` key's timer is cancelled (its
name is returned in the cancel list); an `Active` key records
`last_release = now`. -/
def divert_all_held_keys (s : GatedHoldStrategy) (now : Nat) :
    GatedHoldStrategy × List String :=
  let cancels := (s.key_states.filter fun kv => kv.2 = KeyState.holding).map Prod.fst
  let anyActive := s.key_states.any fun kv => kv.2 = KeyState.active
  let keyStates := s.key_states.map fun kv =>
    if kv.2 = KeyState.holding ∨ kv.2 = KeyState.active then (kv.1, KeyState.diverted)
    else kv
  ({ s with
      key_states := keyStates
      last_release := if anyActive then some now else s.last_release },
   cancels)

/-- `handle_divert` (gated_hold.rs:129-151). -/
def handle_divert (s : GatedHoldStrategy) (event_id : InputEventId) (now : Nat) :
    GatedHoldStrategy × EventResponse × Effects :=
  match AList.lookup s.config.diverts event_id with
  | none => (s, EventResponse.passthrough, Effects.empty)
  | some action =>
    if s.any_key_held then
      let (s', cancels) := s.divert_all_held_keys now
      (s', EventResponse.block,
       { executed := if s.platform_handle then [action] else []
         cancels := cancels
         spawned := [] })
    else
      (s, EventResponse.passthrough, Effects.empty)

/-- `is_gate_open` (gated_hold.rs:158-177): some key is `Active`, or the last
release is within `repeat_window_ms` of now. -/
def is_gate_open (s : GatedHoldStrategy) (now : Nat) : Bool :=
  (s.key_states.any fun kv => kv.2 = KeyState.active) ||
    match s.last_release with
    | some last => now - last < s.config.repeat_window_ms
    | none => false

/-- One drained timer message (gated_hold.rs:185-192): promote the key from
`Holding` to `Active`, ignoring the message if the key was released. -/
def drain_step (m : List (String × KeyState)) (name : String) :
    List (String × KeyState) :=
  match AList.lookup m name with
  | some KeyState.holding => AList.insert m name KeyState.active
  | _ => m

/-- `process_timer_completions` (gated_hold.rs:184-193): drain the timer
channel; each message promotes its key from `Holding` to `Active` and is
ignored otherwise. -/
def process_timer_completions (s : GatedHoldStrategy) : GatedHoldStrategy :=
  { s with
    key_states := s.timer_queue.foldl drain_step s.key_states
    timer_queue := [] }

/-- `key_down` (gated_hold.rs:196-265).  `ctxAction` is the bound action in
the `StrategyContext`; spawning the hold timer is recorded in `spawned`. -/
def key_down (s : GatedHoldStrategy) (key_name : String) (now : Nat)
    (ctxAction : Action) : GatedHoldStrategy × EventResponse × Effects :=
  let gate_open := s.is_gate_open now
  let current_state := (AList.lookup s.key_states key_name).getD KeyState.idle
  let removed := AList.erase s.key_states key_name
  match current_state with
  | KeyState.idle =>
    if gate_open then
      ({ s with key_states := AList.insert removed key_name KeyState.active },
       EventResponse.block, { executed := [ctxAction], cancels := [], spawned := [] })
    else
      ({ s with key_states := AList.insert removed key_name KeyState.holding },
       EventResponse.block, { executed := [], cancels := [], spawned := [key_name] })
  | KeyState.holding =>
    ({ s with key_states := AList.insert removed key_name KeyState.holding },
     EventResponse.block, Effects.empty)
  | KeyState.active =>
    ({ s with key_states := AList.insert removed key_name KeyState.active },
     EventResponse.block, Effects.empty)
  | KeyState.diverted =>
    ({ s with key_states := AList.insert removed key_name KeyState.diverted },
     EventResponse.block, Effects.empty)

/-- `key_up` (gated_hold.rs:268-297): remove the entry; from `Holding` cancel
the timer, from `Active` record `last_release = now`; always `Block`. -/
def key_up (s : GatedHoldStrategy) (key_name : String) (now : Nat) :
    GatedHoldStrategy × EventResponse × Effects :=
  let current_state := (AList.lookup s.key_states key_name).getD KeyState.idle
  let removed := AList.erase s.key_states key_name
  match current_state with
  | KeyState.holding =>
    ({ s with key_states := removed }, EventResponse.block,
     { executed := [], cancels := [key_name], spawned := [] })
  | KeyState.active =>
    ({ s with key_states := removed, last_release := some now },
     EventResponse.block, Effects.empty)
  | KeyState.diverted =>
    ({ s with key_states := removed }, EventResponse.block, Effects.empty)
  | KeyState.idle =>
    ({ s with key_states := removed }, EventResponse.block, Effects.empty)

/-- `process` (gated_hold.rs:307-330): drain timer completions, cache the
platform handle, then dispatch on the event kind. -/
def process (s : GatedHoldStrategy) (event : InputEvent) (now : Nat)
    (ctxAction : Action) : GatedHoldStrategy × EventResponse × Effects :=
  let s1 := s.process_timer_completions
  let s2 := { s1 with platform_handle := true }
  match event with
  | InputEvent.key k down =>
    if down then s2.key_down k.display_name now ctxAction
    else s2.key_up k.display_name now
  | InputEvent.scroll up => s2.handle_divert (InputEventId.scroll up) now

end GatedHoldStrategy

namespace AList

variable {α β : Type} [DecidableEq α]

theorem mem_of_lookup_eq_some {l : List (α × β)} {k : α} {v : β}
    (h : lookup l k = some v) : (k, v) ∈ l := by
  induction l with
  | nil => simp [lookup] at h
  | cons p rest ih =>
    by_cases hp : p.1 = k
    · simp only [lookup, if_pos hp] at h
      cases h
      cases p
      cases hp
      exact List.mem_cons_self _ _
    · simp only [lookup, if_neg hp] at h
      exact List.mem_cons_of_mem _ (ih h)

theorem lookup_insert (l : List (α × β)) (k : α) (v : β) (k' : α) :
    lookup (insert l k v) k' = if k = k' then some v else lookup l k' := by
  by_cases h : k = k'
  · rw [if_pos h, ← h]
    exact lookup_insert_self l k v
  · rw [if_neg h]
    exact lookup_insert_ne l k k' v h

theorem lookup_erase (l : List (α × β)) (k : α) (k' : α) :
    lookup (erase l k) k' = if k = k' then none else lookup l k' := by
  by_cases h : k = k'
  · rw [if_pos h, ← h]
    exact lookup_erase_self l k
  · rw [if_neg h]
    exact lookup_erase_ne l k k' h

theorem erase_sublist (l : List (α × β)) (k : α) : List.Sublist (erase l k) l := by
  induction l with
  | nil => simp [erase]
  | cons p rest ih =>
    by_cases hp : p.1 = k
    · simpa [erase, hp] using ih.cons p
    · simpa [erase, hp] using ih.cons₂ p

theorem keys_erase_nodup (l : List (α × β)) (k : α)
    (h : (keys l).Nodup) : (keys (erase l k)).Nodup :=
  ((erase_sublist l k).map Prod.fst).nodup h

omit [DecidableEq α] in
theorem keys_map_eq_of_fst_preserved (l : List (α × β)) (f : α × β → α × β)
    (hf : ∀ p, (f p).1 = p.1) : keys (l.map f) = keys l := by
  induction l with
  | nil => rfl
  | cons p rest ih => simp [keys, hf, ih.symm]

theorem lookup_eq_some_of_mem_of_nodup {l : List (α × β)} {k : α} {v : β}
    (hnd : (keys l).Nodup) (h : (k, v) ∈ l) : lookup l k = some v := by
  induction l with
  | nil => simp at h
  | cons p rest ih =>
    simp only [keys, List.map_cons, List.nodup_cons] at hnd
    rcases List.mem_cons.1 h with h | h
    · cases h
      simp [lookup]
    · have hk : p.1 ≠ k := by
        intro he
        exact hnd.1 (he ▸ (List.mem_map_of_mem Prod.fst h))
      simp only [lookup, if_neg hk]
      exact ih hnd.2 h

end AList

namespace GatedHoldStrategy

theorem lookup_divert_map (l : List (String × KeyState)) (n : String) :
    AList.lookup (l.map fun kv =>
        if kv.2 = KeyState.holding ∨ kv.2 = KeyState.active then
          (kv.1, KeyState.diverted) else kv) n
      = (AList.lookup l n).map fun v =>
          if v = KeyState.holding ∨ v = KeyState.active then KeyState.diverted
          else v := by
  induction l with
  | nil => simp [AList.lookup]
  | cons p rest ih =>
    by_cases hp : p.1 = n
    · by_cases hv : p.2 = KeyState.holding ∨ p.2 = KeyState.active
      · simp [AList.lookup, hp, hv]
      · simp [AList.lookup, hp, hv]
    · by_cases hv : p.2 = KeyState.holding ∨ p.2 = KeyState.active
      · simp [AList.lookup, hp, hv, ih]
      · simp [AList.lookup, hp, hv, ih]

theorem key_down_resp (s : GatedHoldStrategy) (n : String) (now : Nat)
    (a : Action) : (s.key_down n now a).2.1 = EventResponse.block := by
  unfold key_down
  cases (AList.lookup s.key_states n).getD KeyState.idle
  case idle => dsimp only; split <;> rfl
  all_goals rfl

theorem key_up_resp (s : GatedHoldStrategy) (n : String) (now : Nat) :
    (s.key_up n now).2.1 = EventResponse.block := by
  unfold key_up
  cases (AList.lookup s.key_states n).getD KeyState.idle <;> rfl

theorem process_key_resp (s : GatedHoldStrategy) (k : KeyCode) (down : Bool)
    (now : Nat) (ctxAction : Action) :
    (s.process (InputEvent.key k down) now ctxAction).2.1
      = EventResponse.block := by
  unfold process
  by_cases h : down
  · simp only [h, if_pos]
    exact key_down_resp _ _ _ _
  · simp only [h, if_neg]
    exact key_up_resp _ _ _

end GatedHoldStrategy

/-- C10: every key event (down or up), in every strategy state — including a
key-up for a key with no entry in the state map — makes
`GatedHoldStrategy::process` return `Block`; `Passthrough` can only arise
from non-key (scroll) events. -/
theorem gated_hold_key_events_always_block (s : GatedHoldStrategy)
    (k : KeyCode) (down : Bool) (now : Nat) (ctxAction : Action) :
    (s.process (InputEvent.key k down) now ctxAction).2.1 = EventResponse.block := by
  unfold GatedHoldStrategy.process
  by_cases h : down
  · simp only [h, if_pos]
    exact GatedHoldStrategy.key_down_resp _ _ _ _
  · simp only [h, if_neg]
    exact GatedHoldStrategy.key_up_resp _ _ _

/-- C7: `handle_divert` returns `Passthrough` and leaves the whole strategy
state (per-key states and `last_release`) unchanged whenever the event id has
no entry in the divert map — even if keys are held — or no key is currently
in `Holding`, `Active`, or `Diverted`. -/
theorem gated_hold_divert_inert (s : GatedHoldStrategy) (eid : InputEventId)
    (now : Nat)
    (h : AList.lookup s.config.diverts eid = none ∨ s.any_key_held = false) :
    s.handle_divert eid now = (s, EventResponse.passthrough, Effects.empty) := by
  unfold GatedHoldStrategy.handle_divert
  rcases h with h | h
  · simp [h]
  · cases hl : AList.lookup s.config.diverts eid
    · simp
    · simp [h]

/-- Witness for C7: a strategy with a held key but an unmapped divert event
passes the event through unchanged. -/
theorem gated_hold_divert_inert_witness :
    (AList.lookup
        (GatedHoldStrategy.mk ⟨50, 200, [(InputEventId.scroll true, Action.volumeUp)]⟩
          [("key_1", KeyState.active)] none true []).config.diverts
        (InputEventId.scroll false) = none ∨
      (GatedHoldStrategy.mk ⟨50, 200, [(InputEventId.scroll true, Action.volumeUp)]⟩
          [("key_1", KeyState.active)] none true []).any_key_held = false) ∧
    (GatedHoldStrategy.mk ⟨50, 200, [(InputEventId.scroll true, Action.volumeUp)]⟩
        [("key_1", KeyState.active)] none true []).handle_divert
        (InputEventId.scroll false) 7 =
      (GatedHoldStrategy.mk ⟨50, 200, [(InputEventId.scroll true, Action.volumeUp)]⟩
        [("key_1", KeyState.active)] none true [], EventResponse.passthrough,
        Effects.empty) :=
  ⟨Or.inl (by decide),
   gated_hold_divert_inert _ (InputEventId.scroll false) 7 (Or.inl (by decide))⟩

/-- C2: a divert event whose id is mapped in the divert table, processed while
at least one key is held (and no timer notification is pending), transitions
every `Holding` or `Active` key to `Diverted` — cancelling the `Holding`
keys' pending timers and recording `last_release = now` when a key was
`Active` — executes the mapped action exactly once, and returns `Block`. -/
theorem gated_hold_divert_transitions (s : GatedHoldStrategy) (up : Bool)
    (now : Nat) (ctxAction action : Action)
    (hmap : AList.lookup s.config.diverts (InputEventId.scroll up) = some action)
    (hheld : s.any_key_held = true)
    (htq : s.timer_queue = []) :
    (s.process (InputEvent.scroll up) now ctxAction).2.1 = EventResponse.block ∧
    (s.process (InputEvent.scroll up) now ctxAction).2.2.executed = [action] ∧
    (∀ n, AList.lookup s.key_states n = some KeyState.holding →
      AList.lookup (s.process (InputEvent.scroll up) now ctxAction).1.key_states n
          = some KeyState.diverted ∧
        n ∈ (s.process (InputEvent.scroll up) now ctxAction).2.2.cancels) ∧
    (∀ n, AList.lookup s.key_states n = some KeyState.active →
      AList.lookup (s.process (InputEvent.scroll up) now ctxAction).1.key_states n
          = some KeyState.diverted) ∧
    ((∃ n, AList.lookup s.key_states n = some KeyState.active) →
      (s.process (InputEvent.scroll up) now ctxAction).1.last_release = some now) := by
  obtain ⟨cfg, ks, lr, ph, tq⟩ := s
  simp only at htq
  subst htq
  simp only [GatedHoldStrategy.any_key_held] at hheld
  simp only [GatedHoldStrategy.process, GatedHoldStrategy.process_timer_completions,
    GatedHoldStrategy.handle_divert, GatedHoldStrategy.divert_all_held_keys,
    List.foldl_nil, hmap]
  simp only [GatedHoldStrategy.any_key_held, hheld, if_pos, if_true]
  refine ⟨trivial, trivial, ?_, ?_, ?_⟩
  · intro n hn
    constructor
    · rw [GatedHoldStrategy.lookup_divert_map, hn]
      simp
    · exact List.mem_map_of_mem Prod.fst
        (List.mem_filter.2 ⟨AList.mem_of_lookup_eq_some hn, by simp⟩)
  · intro n hn
    rw [GatedHoldStrategy.lookup_divert_map, hn]
    simp
  · rintro ⟨n, hn⟩
    have : (ks.any fun kv => kv.2 = KeyState.active) = true :=
      List.any_eq_true.2 ⟨(n, KeyState.active), AList.mem_of_lookup_eq_some hn, by simp⟩
    simp [this]

/-- Witness for C2: one `Holding` and one `Active` key, a mapped `scroll_up`
divert; both keys end `Diverted`, the holding key's timer is cancelled,
`last_release` is stamped, `volume_up` runs once, response is `Block`. -/
theorem gated_hold_divert_transitions_witness :
    AList.lookup
        (GatedHoldStrategy.mk ⟨50, 200, [(InputEventId.scroll true, Action.volumeUp)]⟩
          [("key_1", KeyState.holding), ("key_2", KeyState.active)] none true
          []).config.diverts (InputEventId.scroll true) = some Action.volumeUp ∧
    (GatedHoldStrategy.mk ⟨50, 200, [(InputEventId.scroll true, Action.volumeUp)]⟩
        [("key_1", KeyState.holding), ("key_2", KeyState.active)] none true
        []).any_key_held = true ∧
    ((GatedHoldStrategy.mk ⟨50, 200, [(InputEventId.scroll true, Action.volumeUp)]⟩
        [("key_1", KeyState.holding), ("key_2", KeyState.active)] none true
        []).process (InputEvent.scroll true) 9 Action.block).2.2.executed
      = [Action.volumeUp] := by
  refine ⟨by decide, by decide, ?_⟩
  exact (gated_hold_divert_transitions
    (GatedHoldStrategy.mk ⟨50, 200, [(InputEventId.scroll true, Action.volumeUp)]⟩
      [("key_1", KeyState.holding), ("key_2", KeyState.active)] none true [])
    true 9 Action.block Action.volumeUp (by decide) (by decide) rfl).2.1

/-- C3: the gate is open iff some key's state is `Active` or `last_release`
is recorded with `now - last_release < repeat_window_ms`; and a key-down for
a key with no entry in the state map (logically `Idle`), arriving while the
gate is open, transitions that key directly to `Active`, fires the bound
action immediately, and blocks. -/
theorem gated_hold_gate_semantics (s : GatedHoldStrategy) (now : Nat)
    (name : String) (ctxAction : Action)
    (hnd : (AList.keys s.key_states).Nodup) :
    (s.is_gate_open now = true ↔
      (∃ n, AList.lookup s.key_states n = some KeyState.active) ∨
      (∃ last, s.last_release = some last ∧
        now - last < s.config.repeat_window_ms)) ∧
    (AList.lookup s.key_states name = none → s.is_gate_open now = true →
      AList.lookup (s.key_down name now ctxAction).1.key_states name
          = some KeyState.active ∧
      (s.key_down name now ctxAction).2.2.executed = [ctxAction] ∧
      (s.key_down name now ctxAction).2.1 = EventResponse.block) := by
  constructor
  · unfold GatedHoldStrategy.is_gate_open
    rw [Bool.or_eq_true]
    constructor
    · rintro (h | h)
      · left
        obtain ⟨kv, hmem, hkv⟩ := List.any_eq_true.1 h
        have hv : kv.2 = KeyState.active := by simpa using hkv
        refine ⟨kv.1, AList.lookup_eq_some_of_mem_of_nodup hnd ?_⟩
        have : kv = (kv.1, KeyState.active) := by
          cases kv
          simp_all
        exact this ▸ hmem
      · right
        cases hl : s.last_release with
        | none => rw [hl] at h; simp at h
        | some last =>
          rw [hl] at h
          exact ⟨last, rfl, by simpa using h⟩
    · rintro (⟨n, hn⟩ | ⟨last, hl, hw⟩)
      · left
        exact List.any_eq_true.2
          ⟨(n, KeyState.active), AList.mem_of_lookup_eq_some hn, by simp⟩
      · right
        rw [hl]
        simpa using hw
  · intro hlook hgate
    unfold GatedHoldStrategy.key_down
    simp only [hlook, Option.getD_none, hgate, if_true]
    exact ⟨AList.lookup_insert_self _ _ _, trivial, trivial⟩

/-- Witness for C3: a sibling key `key_2` is `Active`, so the gate is open,
and a fresh down of `key_1` activates immediately and fires the action. -/
theorem gated_hold_gate_semantics_witness :
    (AList.keys
        (GatedHoldStrategy.mk ⟨50, 200, []⟩ [("key_2", KeyState.active)] none
          true []).key_states).Nodup ∧
    (GatedHoldStrategy.mk ⟨50, 200, []⟩ [("key_2", KeyState.active)] none true
        []).is_gate_open 3 = true ∧
    AList.lookup
        ((GatedHoldStrategy.mk ⟨50, 200, []⟩ [("key_2", KeyState.active)] none
            true []).key_down "key_1" 3 Action.mediaNext).1.key_states "key_1"
      = some KeyState.active := by
  refine ⟨by decide, by decide, ?_⟩
  exact ((gated_hold_gate_semantics
    (GatedHoldStrategy.mk ⟨50, 200, []⟩ [("key_2", KeyState.active)] none true [])
    3 "key_1" Action.mediaNext (by decide)).2 (by decide) (by decide)).1

/-! Trace semantics for the gated-hold strategy.  A trace interleaves the
strategy's `process` calls (split by event kind, with the key name already
computed as in gated_hold.rs:318) with asynchronous hold-timer completions
arriving on the timer channel.  The bound `StrategyContext` action does not
influence the successor state (it only appears in the effect log), so the
step uses a fixed dummy action, as the dispatcher does for subscribed events
(main.rs:110). -/

/-- One observable event at the gated-hold strategy boundary. -/
inductive GHEvent where
  | keyEvent (name : String) (down : Bool) (now : Nat)
  | scrollEvent (up : Bool) (now : Nat)
  | timerFire (name : String)
deriving DecidableEq

namespace GatedHoldStrategy

/-- Successor state of one trace event: `process` for key/scroll events
(timer drain, handle caching, then dispatch), an enqueue on the timer
channel for a timer completion. -/
def stepEvent (s : GatedHoldStrategy) : GHEvent → GatedHoldStrategy
  | GHEvent.keyEvent n d now =>
    let s2 := { s.process_timer_completions with platform_handle := true }
    if d then (s2.key_down n now Action.block).1 else (s2.key_up n now).1
  | GHEvent.scrollEvent u now =>
    let s2 := { s.process_timer_completions with platform_handle := true }
    (s2.handle_divert (InputEventId.scroll u) now).1
  | GHEvent.timerFire n => { s with timer_queue := s.timer_queue ++ [n] }

/-- Run a trace of events from a starting state. -/
def runEvents (s : GatedHoldStrategy) : List GHEvent → GatedHoldStrategy
  | [] => s
  | e :: rest => runEvents (s.stepEvent e) rest

end GatedHoldStrategy

/-- The down/up transitions of one key in a trace, in order (`true` = down). -/
def keyTransitionsOf (tr : List GHEvent) (n : String) : List Bool :=
  tr.filterMap fun e =>
    match e with
    | GHEvent.keyEvent m d _ => if m = n then some d else none
    | _ => none

/-- The key names a trace mentions in key events. -/
def keyNamesOf (tr : List GHEvent) : List String :=
  tr.filterMap fun e =>
    match e with
    | GHEvent.keyEvent m _ _ => some m
    | _ => none

/-- The last element of a list, scanning from the front. -/
def lastOf : List Bool → Option Bool
  | [] => none
  | b :: rest =>
    match lastOf rest with
    | some d => some d
    | none => some b

/-- Whether a list of transitions strictly alternates starting from the
expected value `e` (for a physical key: down, up, down, up, …). -/
def altFrom : Bool → List Bool → Bool
  | _, [] => true
  | e, b :: rest => b = e && altFrom (!e) rest

/-- The keys a trace leaves physically held: mentioned in the trace with a
down as their last transition. -/
def heldNames (tr : List GHEvent) : List String :=
  (keyNamesOf tr).dedup.filter fun n =>
    lastOf (keyTransitionsOf tr n) = some true

namespace GatedHoldStrategy

theorem drain_lookup_isSome (q : List String) (m : List (String × KeyState))
    (n : String) :
    (AList.lookup (q.foldl drain_step m) n).isSome
      = (AList.lookup m n).isSome := by
  induction q generalizing m with
  | nil => rfl
  | cons name rest ih =>
    rw [List.foldl_cons, ih]
    unfold drain_step
    cases hl : AList.lookup m name with
    | none => rfl
    | some v =>
      cases v
      case holding =>
        rw [AList.lookup_insert]
        by_cases h : name = n
        · rw [if_pos h, ← h, hl]
          rfl
        · rw [if_neg h]
      all_goals rfl

theorem drain_no_idle (q : List String) (m : List (String × KeyState))
    (h : ∀ n, AList.lookup m n ≠ some KeyState.idle) :
    ∀ n, AList.lookup (q.foldl drain_step m) n ≠ some KeyState.idle := by
  induction q generalizing m with
  | nil => exact h
  | cons name rest ih =>
    rw [List.foldl_cons]
    refine ih _ ?_
    intro n
    unfold drain_step
    cases hl : AList.lookup m name with
    | none => exact h n
    | some v =>
      cases v
      case holding =>
        rw [AList.lookup_insert]
        by_cases hn : name = n
        · rw [if_pos hn]
          simp
        · rw [if_neg hn]
          exact h n
      all_goals exact h n

theorem drain_nodup (q : List String) (m : List (String × KeyState))
    (h : (AList.keys m).Nodup) :
    (AList.keys (q.foldl drain_step m)).Nodup := by
  induction q generalizing m with
  | nil => exact h
  | cons name rest ih =>
    rw [List.foldl_cons]
    refine ih _ ?_
    unfold drain_step
    cases AList.lookup m name with
    | none => exact h
    | some v =>
      cases v
      case holding => exact AList.keys_insert_nodup _ _ _ h
      all_goals exact h

theorem key_down_lookup_self (s : GatedHoldStrategy) (n : String) (now : Nat)
    (a : Action) :
    (AList.lookup (s.key_down n now a).1.key_states n).isSome = true := by
  unfold key_down
  cases (AList.lookup s.key_states n).getD KeyState.idle
  case idle =>
    dsimp only
    split <;> simp [AList.lookup_insert_self]
  all_goals simp [AList.lookup_insert_self]

theorem key_down_lookup_other (s : GatedHoldStrategy) (n m : String)
    (now : Nat) (a : Action) (h : n ≠ m) :
    AList.lookup (s.key_down n now a).1.key_states m
      = AList.lookup s.key_states m := by
  unfold key_down
  cases (AList.lookup s.key_states n).getD KeyState.idle
  case idle =>
    dsimp only
    split <;>
      simp [AList.lookup_insert_ne _ _ _ _ h, AList.lookup_erase_ne _ _ _ h]
  all_goals simp [AList.lookup_insert_ne _ _ _ _ h, AList.lookup_erase_ne _ _ _ h]

theorem key_down_self_not_idle (s : GatedHoldStrategy) (n : String)
    (now : Nat) (a : Action) :
    AList.lookup (s.key_down n now a).1.key_states n ≠ some KeyState.idle := by
  unfold key_down
  cases (AList.lookup s.key_states n).getD KeyState.idle
  case idle =>
    dsimp only
    split <;> simp [AList.lookup_insert_self]
  all_goals simp [AList.lookup_insert_self]

theorem key_down_no_idle (s : GatedHoldStrategy) (n : String) (now : Nat)
    (a : Action) (h : ∀ m, AList.lookup s.key_states m ≠ some KeyState.idle) :
    ∀ m, AList.lookup (s.key_down n now a).1.key_states m ≠ some KeyState.idle := by
  intro m
  by_cases hm : n = m
  · subst hm
    exact key_down_self_not_idle s n now a
  · rw [key_down_lookup_other s n m now a hm]
    exact h m

theorem key_down_nodup (s : GatedHoldStrategy) (n : String) (now : Nat)
    (a : Action) (h : (AList.keys s.key_states).Nodup) :
    (AList.keys (s.key_down n now a).1.key_states).Nodup := by
  unfold key_down
  cases (AList.lookup s.key_states n).getD KeyState.idle
  case idle =>
    dsimp only
    split <;>
      exact AList.keys_insert_nodup _ _ _ (AList.keys_erase_nodup _ _ h)
  all_goals exact AList.keys_insert_nodup _ _ _ (AList.keys_erase_nodup _ _ h)

theorem key_up_lookup_self (s : GatedHoldStrategy) (n : String) (now : Nat) :
    AList.lookup (s.key_up n now).1.key_states n = none := by
  unfold key_up
  cases (AList.lookup s.key_states n).getD KeyState.idle
  all_goals simp [AList.lookup_erase_self]

theorem key_up_lookup_other (s : GatedHoldStrategy) (n m : String) (now : Nat)
    (h : n ≠ m) :
    AList.lookup (s.key_up n now).1.key_states m
      = AList.lookup s.key_states m := by
  unfold key_up
  cases (AList.lookup s.key_states n).getD KeyState.idle
  all_goals simp [AList.lookup_erase_ne _ _ _ h]

theorem key_up_nodup (s : GatedHoldStrategy) (n : String) (now : Nat)
    (h : (AList.keys s.key_states).Nodup) :
    (AList.keys (s.key_up n now).1.key_states).Nodup := by
  unfold key_up
  cases (AList.lookup s.key_states n).getD KeyState.idle
  all_goals exact AList.keys_erase_nodup _ _ h

theorem handle_divert_lookup (s : GatedHoldStrategy) (eid : InputEventId)
    (now : Nat) (m : String) :
    AList.lookup (s.handle_divert eid now).1.key_states m
      = (AList.lookup s.key_states m).map (fun v =>
          if (s.handle_divert eid now).2.1 = EventResponse.block ∧
              (v = KeyState.holding ∨ v = KeyState.active) then
            KeyState.diverted
          else v) := by
  unfold handle_divert
  cases AList.lookup s.config.diverts eid with
  | none =>
    dsimp only
    cases AList.lookup s.key_states m <;> simp
  | some action =>
    dsimp only
    by_cases hheld : s.any_key_held
    · rw [if_pos hheld]
      dsimp only [divert_all_held_keys]
      rw [lookup_divert_map]
      cases AList.lookup s.key_states m <;> simp
    · rw [if_neg hheld]
      cases AList.lookup s.key_states m <;> simp

theorem handle_divert_no_idle (s : GatedHoldStrategy) (eid : InputEventId)
    (now : Nat) (h : ∀ m, AList.lookup s.key_states m ≠ some KeyState.idle) :
    ∀ m, AList.lookup (s.handle_divert eid now).1.key_states m
        ≠ some KeyState.idle := by
  intro m
  rw [handle_divert_lookup]
  cases hl : AList.lookup s.key_states m with
  | none => simp
  | some v =>
    have := h m
    rw [hl] at this
    simp only [Option.map_some']
    split
    · intro hc
      exact absurd (Option.some.inj hc) (by decide)
    · exact this

theorem handle_divert_nodup (s : GatedHoldStrategy) (eid : InputEventId)
    (now : Nat) (h : (AList.keys s.key_states).Nodup) :
    (AList.keys (s.handle_divert eid now).1.key_states).Nodup := by
  unfold handle_divert
  cases AList.lookup s.config.diverts eid with
  | none => exact h
  | some action =>
    dsimp only
    by_cases hheld : s.any_key_held
    · rw [if_pos hheld]
      dsimp only [divert_all_held_keys]
      rw [AList.keys_map_eq_of_fst_preserved]
      · exact h
      · intro p
        split <;> rfl
    · rw [if_neg hheld]
      exact h

theorem stepEvent_membership (s : GatedHoldStrategy) (e : GHEvent) (n : String) :
    (AList.lookup (s.stepEvent e).key_states n).isSome =
      match e with
      | GHEvent.keyEvent m d _ =>
        if m = n then d else (AList.lookup s.key_states n).isSome
      | _ => (AList.lookup s.key_states n).isSome := by
  cases e with
  | keyEvent m d now =>
    cases d with
    | true =>
      rw [show s.stepEvent (GHEvent.keyEvent m true now)
          = (({ s.process_timer_completions with platform_handle := true
              } : GatedHoldStrategy).key_down m now Action.block).1 from rfl]
      by_cases hm : m = n
      · subst hm
        simpa using key_down_lookup_self _ m now Action.block
      · rw [key_down_lookup_other _ m n now Action.block hm]
        simp only [process_timer_completions, if_neg hm]
        exact drain_lookup_isSome _ _ _
    | false =>
      rw [show s.stepEvent (GHEvent.keyEvent m false now)
          = (({ s.process_timer_completions with platform_handle := true
              } : GatedHoldStrategy).key_up m now).1 from rfl]
      by_cases hm : m = n
      · subst hm
        simp [key_up_lookup_self]
      · rw [key_up_lookup_other _ m n now hm]
        simp only [process_timer_completions, if_neg hm]
        exact drain_lookup_isSome _ _ _
  | scrollEvent u now =>
    dsimp only [stepEvent]
    rw [handle_divert_lookup]
    rw [show ∀ (o : Option KeyState) (f : KeyState → KeyState),
          (o.map f).isSome = o.isSome by intro o f; cases o <;> rfl]
    exact drain_lookup_isSome _ _ _
  | timerFire m => rfl

theorem stepEvent_no_idle (s : GatedHoldStrategy) (e : GHEvent)
    (h : ∀ m, AList.lookup s.key_states m ≠ some KeyState.idle) :
    ∀ m, AList.lookup (s.stepEvent e).key_states m ≠ some KeyState.idle := by
  have hdrain : ∀ m,
      AList.lookup ({ s.process_timer_completions with platform_handle := true
        } : GatedHoldStrategy).key_states m ≠ some KeyState.idle := by
    intro m
    exact drain_no_idle _ _ h m
  cases e with
  | keyEvent m d now =>
    cases d with
    | true =>
      rw [show s.stepEvent (GHEvent.keyEvent m true now)
          = (({ s.process_timer_completions with platform_handle := true
              } : GatedHoldStrategy).key_down m now Action.block).1 from rfl]
      exact key_down_no_idle _ m now Action.block hdrain
    | false =>
      rw [show s.stepEvent (GHEvent.keyEvent m false now)
          = (({ s.process_timer_completions with platform_handle := true
              } : GatedHoldStrategy).key_up m now).1 from rfl]
      intro m'
      by_cases hm : m = m'
      · subst hm
        rw [key_up_lookup_self]
        simp
      · rw [key_up_lookup_other _ m m' now hm]
        exact hdrain m'
  | scrollEvent u now =>
    dsimp only [stepEvent]
    exact handle_divert_no_idle _ _ now hdrain
  | timerFire m => exact h

theorem stepEvent_nodup (s : GatedHoldStrategy) (e : GHEvent)
    (h : (AList.keys s.key_states).Nodup) :
    (AList.keys (s.stepEvent e).key_states).Nodup := by
  have hdrain : (AList.keys ({ s.process_timer_completions with
      platform_handle := true } : GatedHoldStrategy).key_states).Nodup :=
    drain_nodup _ _ h
  cases e with
  | keyEvent m d now =>
    cases d with
    | true =>
      rw [show s.stepEvent (GHEvent.keyEvent m true now)
          = (({ s.process_timer_completions with platform_handle := true
              } : GatedHoldStrategy).key_down m now Action.block).1 from rfl]
      exact key_down_nodup _ m now Action.block hdrain
    | false =>
      rw [show s.stepEvent (GHEvent.keyEvent m false now)
          = (({ s.process_timer_completions with platform_handle := true
              } : GatedHoldStrategy).key_up m now).1 from rfl]
      exact key_up_nodup _ m now hdrain
  | scrollEvent u now =>
    dsimp only [stepEvent]
    exact handle_divert_nodup _ _ now hdrain
  | timerFire m => exact h

end GatedHoldStrategy

theorem keyTransitionsOf_cons_key (m : String) (d : Bool) (now : Nat)
    (rest : List GHEvent) (n : String) :
    keyTransitionsOf (GHEvent.keyEvent m d now :: rest) n =
      if m = n then d :: keyTransitionsOf rest n
      else keyTransitionsOf rest n := by
  by_cases hm : m = n
  · simp [keyTransitionsOf, List.filterMap_cons, hm]
  · simp [keyTransitionsOf, List.filterMap_cons, hm]

theorem keyTransitionsOf_cons_scroll (u : Bool) (now : Nat)
    (rest : List GHEvent) (n : String) :
    keyTransitionsOf (GHEvent.scrollEvent u now :: rest) n
      = keyTransitionsOf rest n := by
  simp [keyTransitionsOf, List.filterMap_cons]

theorem keyTransitionsOf_cons_timer (m : String) (rest : List GHEvent)
    (n : String) :
    keyTransitionsOf (GHEvent.timerFire m :: rest) n
      = keyTransitionsOf rest n := by
  simp [keyTransitionsOf, List.filterMap_cons]

namespace GatedHoldStrategy

theorem runEvents_membership (tr : List GHEvent) (s : GatedHoldStrategy)
    (n : String) :
    (AList.lookup (s.runEvents tr).key_states n).isSome =
      match lastOf (keyTransitionsOf tr n) with
      | some d => d
      | none => (AList.lookup s.key_states n).isSome := by
  induction tr generalizing s with
  | nil => rfl
  | cons e rest ih =>
    rw [show s.runEvents (e :: rest) = (s.stepEvent e).runEvents rest from rfl, ih]
    cases e with
    | keyEvent m d now =>
      rw [keyTransitionsOf_cons_key]
      by_cases hm : m = n
      · rw [if_pos hm]
        dsimp only [lastOf]
        cases hl : lastOf (keyTransitionsOf rest n) with
        | some x => rfl
        | none =>
          rw [stepEvent_membership]
          simp [hm]
      · rw [if_neg hm]
        cases hl : lastOf (keyTransitionsOf rest n) with
        | some x => rfl
        | none =>
          rw [stepEvent_membership]
          simp [hm]
    | scrollEvent u now =>
      rw [keyTransitionsOf_cons_scroll]
      cases hl : lastOf (keyTransitionsOf rest n) with
      | some x => rfl
      | none => rw [stepEvent_membership]
    | timerFire m =>
      rw [keyTransitionsOf_cons_timer]
      cases hl : lastOf (keyTransitionsOf rest n) with
      | some x => rfl
      | none => rw [stepEvent_membership]

theorem runEvents_no_idle (tr : List GHEvent) (s : GatedHoldStrategy)
    (h : ∀ m, AList.lookup s.key_states m ≠ some KeyState.idle) :
    ∀ m, AList.lookup (s.runEvents tr).key_states m ≠ some KeyState.idle := by
  induction tr generalizing s with
  | nil => exact h
  | cons e rest ih => exact ih _ (stepEvent_no_idle s e h)

theorem runEvents_nodup (tr : List GHEvent) (s : GatedHoldStrategy)
    (h : (AList.keys s.key_states).Nodup) :
    (AList.keys (s.runEvents tr).key_states).Nodup := by
  induction tr generalizing s with
  | nil => exact h
  | cons e rest ih => exact ih _ (stepEvent_nodup s e h)

end GatedHoldStrategy

theorem alt_balanced_last :
    ∀ l : List Bool, altFrom true l = true →
      l.count true = l.count false → lastOf l ≠ some true
  | [], _, _ => by simp [lastOf]
  | [b], halt, hbal => by
    have hb : b = true := by simpa [altFrom] using halt
    subst hb
    simp at hbal
  | a :: b :: rest, halt, hbal => by
    simp only [altFrom, Bool.and_eq_true, decide_eq_true_eq, Bool.not_true] at halt
    obtain ⟨ha, hb, hrest⟩ := halt
    subst ha
    subst hb
    have hbal' : rest.count true = rest.count false := by
      simp [List.count_cons] at hbal
      omega
    have ih := alt_balanced_last rest hrest hbal'
    dsimp only [lastOf]
    cases hl : lastOf rest with
    | some x =>
      rw [hl] at ih
      simpa using ih
    | none => simp

theorem mem_keyNames_of_lastOf (tr : List GHEvent) (n : String) (d : Bool)
    (h : lastOf (keyTransitionsOf tr n) = some d) : n ∈ keyNamesOf tr := by
  induction tr with
  | nil => simp [keyTransitionsOf, lastOf] at h
  | cons e rest ih =>
    cases e with
    | keyEvent m dd now =>
      rw [keyTransitionsOf_cons_key] at h
      by_cases hm : m = n
      · subst hm
        simp [keyNamesOf, List.filterMap_cons]
      · rw [if_neg hm] at h
        simp only [keyNamesOf, List.filterMap_cons]
        exact List.mem_cons_of_mem _ (ih h)
    | scrollEvent u now =>
      rw [keyTransitionsOf_cons_scroll] at h
      simp only [keyNamesOf, List.filterMap_cons]
      exact ih h
    | timerFire m =>
      rw [keyTransitionsOf_cons_timer] at h
      simp only [keyNamesOf, List.filterMap_cons]
      exact ih h

/-- C6: over every trace of key, scroll and timer events starting from a
fresh strategy, the per-key state map never stores `Idle`; a key whose
down/up transitions alternate (down first) and balance out has no entry in
the map; and the map's size is bounded by the number of keys the trace
leaves held. -/
theorem gated_hold_idle_absence (cfg : GatedHoldConfig) (tr : List GHEvent)
    (n : String)
    (halt : altFrom true (keyTransitionsOf tr n) = true)
    (hbal : (keyTransitionsOf tr n).count true
      = (keyTransitionsOf tr n).count false) :
    (∀ m, AList.lookup
        ((GatedHoldStrategy.new cfg).runEvents tr).key_states m
        ≠ some KeyState.idle) ∧
    AList.lookup ((GatedHoldStrategy.new cfg).runEvents tr).key_states n
        = none ∧
    ((GatedHoldStrategy.new cfg).runEvents tr).key_states.length
      ≤ (heldNames tr).length := by
  refine ⟨?_, ?_, ?_⟩
  · exact GatedHoldStrategy.runEvents_no_idle tr _ (by intro m; simp [GatedHoldStrategy.new, AList.lookup])
  · have hmem := GatedHoldStrategy.runEvents_membership tr (GatedHoldStrategy.new cfg) n
    have hlast := alt_balanced_last _ halt hbal
    have hfalse : (AList.lookup
        ((GatedHoldStrategy.new cfg).runEvents tr).key_states n).isSome = false := by
      rcases hl : lastOf (keyTransitionsOf tr n) with _ | d
      · rw [hl] at hmem
        rw [hmem,
          show AList.lookup (GatedHoldStrategy.new cfg).key_states n = none from rfl]
        rfl
      · rw [hl] at hmem
        cases d with
        | false => rw [hmem]
        | true => exact absurd hl hlast
    cases ho : AList.lookup ((GatedHoldStrategy.new cfg).runEvents tr).key_states n with
    | none => rfl
    | some v =>
      rw [ho] at hfalse
      simp at hfalse
  · have hnd : (AList.keys
        ((GatedHoldStrategy.new cfg).runEvents tr).key_states).Nodup :=
      GatedHoldStrategy.runEvents_nodup tr _ (by simp [GatedHoldStrategy.new, AList.keys])
    have hsub : AList.keys ((GatedHoldStrategy.new cfg).runEvents tr).key_states
        ⊆ heldNames tr := by
      intro k hk
      have hsome := (AList.lookup_isSome_iff_mem_keys _ k).2 hk
      have hmem := GatedHoldStrategy.runEvents_membership tr (GatedHoldStrategy.new cfg) k
      rw [hsome] at hmem
      rcases hl : lastOf (keyTransitionsOf tr k) with _ | d
      · rw [hl,
          show AList.lookup (GatedHoldStrategy.new cfg).key_states k = none from rfl]
          at hmem
        simp at hmem
      · rw [hl] at hmem
        cases d with
        | false => simp at hmem
        | true =>
          refine List.mem_filter.2 ⟨List.mem_dedup.2 ?_, ?_⟩
          · exact mem_keyNames_of_lastOf tr k true hl
          · simp [hl]
    calc ((GatedHoldStrategy.new cfg).runEvents tr).key_states.length
        = (AList.keys ((GatedHoldStrategy.new cfg).runEvents tr).key_states).length := by
          simp [AList.keys]
      _ ≤ (heldNames tr).length := (hnd.subperm hsub).length_le

/-- Witness for C6: the trace down–up, down–up of `key_1` (with a sibling
held and a stale timer message interleaved) leaves `key_1` absent and one
entry (the sibling) in the map. -/
theorem gated_hold_idle_absence_witness :
    altFrom true (keyTransitionsOf
      [GHEvent.keyEvent "key_1" true 0, GHEvent.keyEvent "key_2" true 1,
        GHEvent.timerFire "key_1", GHEvent.keyEvent "key_1" false 2,
        GHEvent.keyEvent "key_1" true 3, GHEvent.keyEvent "key_1" false 4]
      "key_1") = true ∧
    AList.lookup ((GatedHoldStrategy.new ⟨50, 200, []⟩).runEvents
      [GHEvent.keyEvent "key_1" true 0, GHEvent.keyEvent "key_2" true 1,
        GHEvent.timerFire "key_1", GHEvent.keyEvent "key_1" false 2,
        GHEvent.keyEvent "key_1" true 3, GHEvent.keyEvent "key_1" false 4]).key_states
      "key_1" = none := by
  refine ⟨by decide, ?_⟩
  exact (gated_hold_idle_absence ⟨50, 200, []⟩
    [GHEvent.keyEvent "key_1" true 0, GHEvent.keyEvent "key_2" true 1,
      GHEvent.timerFire "key_1", GHEvent.keyEvent "key_1" false 2,
      GHEvent.keyEvent "key_1" true 3, GHEvent.keyEvent "key_1" false 4]
    "key_1" (by decide) (by decide)).2.1

/-! Configuration types (src/config/types.rs) and the configuration loader
(src/config/mod.rs).  TOML documents are embedded post-parse: a `Config` is
the span-preserving table the `toml` crate produced, hash maps are
association lists in their (unspecified) iteration order, and source text is
a `List Char` (byte spans coincide with character indices for ASCII
configs). -/

/-- Byte span in the source file (config/types.rs, `type Span = Range<usize>`). -/
structure Span where
  start : Nat
  stop : Nat
deriving DecidableEq

/-- A string with its source location (config/types.rs, `Spanned<String>`;
identity is the value only). -/
structure SpannedString where
  value : String
  span : Span
deriving DecidableEq

/-- Window matching condition (config/types.rs, `WindowCondition`). -/
structure WindowCondition where
  title : Option String
  not_title : Option String
  «class» : Option String
  not_class : Option String
  binary : Option String
  not_binary : Option String
deriving DecidableEq

/-- Focused window snapshot (config/types.rs, `WindowInfo`). -/
structure WindowInfo where
  title : String
  «class» : String
  binary : String
deriving DecidableEq

/-- `WindowCondition::is_empty` (config/types.rs:142-149). -/
def WindowCondition.is_empty (c : WindowCondition) : Bool :=
  c.title = none ∧ c.not_title = none ∧ c.«class» = none ∧
    c.not_class = none ∧ c.binary = none ∧ c.not_binary = none

/-- `WindowCondition::matches` (config/types.rs:153-192).  Glob matching is
the external `glob_match` crate, passed in as a parameter. -/
def WindowCondition.matches (globMatch : String → String → Bool)
    (c : WindowCondition) (info : WindowInfo) : Bool :=
  (match c.title with
    | some pattern => globMatch pattern info.title
    | none => true) &&
  (match c.«class» with
    | some pattern => globMatch pattern info.«class»
    | none => true) &&
  (match c.binary with
    | some pattern => globMatch pattern info.binary
    | none => true) &&
  (match c.not_title with
    | some pattern => !globMatch pattern info.title
    | none => true) &&
  (match c.not_class with
    | some pattern => !globMatch pattern info.«class»
    | none => true) &&
  (match c.not_binary with
    | some pattern => !globMatch pattern info.binary
    | none => true)

/-- `Condition` (config/types.rs:112-121). -/
structure Condition where
  window : WindowCondition
deriving DecidableEq

def Condition.is_empty (c : Condition) : Bool := c.window.is_empty

/-- A conditional action rule (config/types.rs, `ConditionalAction`). -/
structure ConditionalAction where
  condition : Condition
  action : Action
deriving DecidableEq

/-- Action specification (config/types.rs, `ActionSpec`). -/
inductive ActionSpec where
  | simple (action : Action)
  | conditional (rules : List ConditionalAction)
deriving DecidableEq

/-- A key binding (config/types.rs, `Binding`). -/
structure Binding where
  action : ActionSpec
  strategy : Option SpannedString
deriving DecidableEq

/-- `Action::as_response` (config/types.rs:263-269). -/
def Action.as_response : Action → Option EventResponse
  | Action.passthrough => some EventResponse.passthrough
  | Action.block => some EventResponse.block
  | _ => none

/-- Strategy configuration (config/types.rs, `StrategyConfig`): the
`gated_hold` variant with its serde-parsed diverts table of raw strings. -/
inductive StrategyConfig where
  | gatedHold (initial_hold_ms : Nat) (repeat_window_ms : Nat)
      (diverts : List (String × String))
deriving DecidableEq

/-- Parsed configuration before validation (config/mod.rs, `Config`);
the two hash maps are association lists in iteration order. -/
structure Config where
  strategies : List (SpannedString × StrategyConfig)
  bindings : List (SpannedString × Binding)
deriving DecidableEq

/-- `parse_action` (config/mod.rs:438-450).  The source matches exactly these
eight tokens; in particular no `volume_*` token is matched even though
`Action` has the volume variants. -/
def parse_action (s : String) : Except String Action :=
  match s with
  | "media_play_pause" => Except.ok Action.mediaPlayPause
  | "media_next" => Except.ok Action.mediaNext
  | "media_previous" => Except.ok Action.mediaPrevious
  | "media_stop" => Except.ok Action.mediaStop
  | "browser_back" => Except.ok Action.browserBack
  | "browser_forward" => Except.ok Action.browserForward
  | "passthrough" => Except.ok Action.passthrough
  | "block" => Except.ok Action.block
  | _ => Except.error ("unknown action '" ++ s ++ "'")

/-- The derived serde deserialization of `Action` under
`#[serde(rename_all = "snake_case")]` (config/types.rs:204-227), used by the
conditional-rule path (`ConditionalAction::deserialize`, config/mod.rs:317):
every variant, volume actions included, by its snake_case name. -/
def Action.from_snake_case (s : String) : Option Action :=
  match s with
  | "media_play_pause" => some Action.mediaPlayPause
  | "media_next" => some Action.mediaNext
  | "media_previous" => some Action.mediaPrevious
  | "media_stop" => some Action.mediaStop
  | "volume_up" => some Action.volumeUp
  | "volume_down" => some Action.volumeDown
  | "volume_mute" => some Action.volumeMute
  | "browser_back" => some Action.browserBack
  | "browser_forward" => some Action.browserForward
  | "passthrough" => some Action.passthrough
  | "block" => some Action.block
  | _ => none

/-! Key specifier parsing (src/key.rs, `parse_key_specifier`).  The name
fallback consults the platform Key Registry, an external collaborator
(§4.6); it is passed in as the association list `nameMap` of lowercase
names to codes. -/

/-- Value of one hex digit, as accepted by `u32::from_str_radix(_, 16)`. -/
def hexDigitVal (c : Char) : Option Nat :=
  if '0' ≤ c ∧ c ≤ '9' then some (c.toNat - '0'.toNat)
  else if 'a' ≤ c ∧ c ≤ 'f' then some (c.toNat - 'a'.toNat + 10)
  else if 'A' ≤ c ∧ c ≤ 'F' then some (c.toNat - 'A'.toNat + 10)
  else none

/-- `u32::from_str_radix(s, 16)`: fails on an empty string, a non-digit, or
overflow past `u32::MAX`. -/
def from_str_radix16 (cs : List Char) : Option Nat :=
  if cs = [] then none
  else
    match cs.foldl (fun acc c => acc.bind fun n =>
        (hexDigitVal c).map fun d => n * 16 + d) (some 0) with
    | some n => if n < 2 ^ 32 then some n else none
    | none => none

/-- `str::parse::<u32>()` on an all-digit string: fails on empty or
overflow. -/
def parse_u32_decimal (cs : List Char) : Option Nat :=
  if cs = [] then none
  else
    let n := cs.foldl (fun acc c => acc * 10 + (c.toNat - '0'.toNat)) 0
    if n < 2 ^ 32 then some n else none

/-- `str::strip_prefix`. -/
def strip_prefix_chars : List Char → List Char → Option (List Char)
  | [], s => some s
  | _ :: _, [] => none
  | p :: ps, c :: cs => if c = p then strip_prefix_chars ps cs else none

/-- `String::to_lowercase` (ASCII fragment). -/
def to_lowercase (s : String) : String := String.map Char.toLower s

/-- `parse_key_specifier` (key.rs:85-102): hex literal, then decimal literal,
then case-insensitive registry lookup. -/
def parse_key_specifier (nameMap : List (String × Nat)) (s : String) :
    Option KeyCode :=
  let hexBody :=
    match strip_prefix_chars ['0', 'x'] s.data with
    | some rest => some rest
    | none => strip_prefix_chars ['0', 'X'] s.data
  match hexBody.bind from_str_radix16 with
  | some code => some ⟨code⟩
  | none =>
    if s.data.all Char.isDigit then
      match parse_u32_decimal s.data with
      | some code => some ⟨code⟩
      | none =>
        (AList.lookup nameMap (to_lowercase s)).map fun code => ⟨code⟩
    else
      (AList.lookup nameMap (to_lowercase s)).map fun code => ⟨code⟩

/-- `KeyCode::from_config_str` (key.rs:54-57). -/
def KeyCode.from_config_str (nameMap : List (String × Nat)) (s : String) :
    Option KeyCode :=
  parse_key_specifier nameMap s

/-! Validation diagnostics (src/config/error.rs). -/

/-- `byte_offset_to_line` (error.rs:13-19): 1-based line of a byte offset. -/
def byte_offset_to_line (content : List Char) (offset : Nat) : Nat :=
  ((content.take (min offset content.length)).filter fun c =>
    c = '\n').length + 1

/-- A single validation issue (error.rs, `ConfigIssue`). -/
structure ConfigIssue where
  span : Span
  message : String
  label : String
  help : Option String
deriving DecidableEq

namespace ConfigIssue

/-- `ConfigIssue::unknown_key` (error.rs:36-45). -/
def unknown_key (span : Span) (key : String) : ConfigIssue :=
  { span := span
    message := "unknown key '" ++ key ++ "'"
    label := "not a valid key name or code"
    help := some
      "valid formats: hex (0x7C), decimal (124), or key name (space, enter)" }

/-- `ConfigIssue::undefined_strategy` (error.rs:48-60). -/
def undefined_strategy (span : Span) (name : String)
    (defined : List String) : ConfigIssue :=
  { span := span
    message := "undefined strategy '" ++ name ++ "'"
    label := "strategy not found"
    help := some (if defined = [] then
        "no strategies are defined in this config"
      else
        "defined strategies: " ++ String.intercalate ", " defined) }

/-- `ConfigIssue::duplicate_binding` (error.rs:63-77): the help names the
source line of the span already recorded in `seen_keys`. -/
def duplicate_binding (span : Span) (key_display : String)
    (original_span : Span) (source_content : List Char) : ConfigIssue :=
  { span := span
    message := "duplicate binding for key '" ++ key_display ++ "'"
    label := "duplicate"
    help := some ("first defined at line " ++
      toString (byte_offset_to_line source_content original_span.start)) }

end ConfigIssue

/-- One rendered diagnostic (error.rs, `ConfigIssueDiagnostic`): the span is
converted to `(offset, length)`. -/
structure ConfigIssueDiagnostic where
  message : String
  spanOffset : Nat
  spanLength : Nat
  label : String
  help : Option String
deriving DecidableEq

/-- The collected validation error (error.rs, `ConfigValidationError`). -/
structure ConfigValidationError where
  srcName : String
  issues : List ConfigIssueDiagnostic
deriving DecidableEq

/-- Stable insertion into a list sorted by span start (the effect of
`issues.sort_by_key(|i| i.span.start)`, error.rs:123). -/
def insertBySpanStart (x : ConfigIssue) : List ConfigIssue → List ConfigIssue
  | [] => [x]
  | y :: rest =>
    if x.span.start < y.span.start then x :: y :: rest
    else y :: insertBySpanStart x rest

/-- Stable sort by span start (error.rs:123, `sort_by_key` is stable). -/
def sortBySpanStart (l : List ConfigIssue) : List ConfigIssue :=
  l.foldl (fun acc x => insertBySpanStart x acc) []

/-- `ConfigValidationError::new` (error.rs:117-140): sort the issues by span
start, then render each to a diagnostic. -/
def ConfigValidationError.new (source_name : String) (issues : List ConfigIssue) :
    ConfigValidationError :=
  { srcName := source_name
    issues := (sortBySpanStart issues).map fun issue =>
      { message := issue.message
        spanOffset := issue.span.start
        spanLength := issue.span.stop - issue.span.start
        label := issue.label
        help := issue.help } }

/-! `build_runtime` (config/mod.rs:352-433). -/

/-- The outcome of `build_runtime` together with the issues it pushed onto
`self.issues`. -/
structure BuildOut where
  bindings : List (KeyCode × Binding)
  strategies : List (String × GatedHoldStrategy)
  issues : List ConfigIssue
deriving DecidableEq

/-- The per-binding loop of `build_runtime` (config/mod.rs:364-412), folded
over the bindings map in its iteration order.  `seen` is `seen_keys`. -/
def build_bindings (nameMap : List (String × Nat)) (strategy_names : List String)
    (content : List Char) :
    List (SpannedString × Binding) → List (KeyCode × Span) →
    List (KeyCode × Binding) × List ConfigIssue
  | [], _ => ([], [])
  | (key_spanned, binding) :: rest, seen =>
    match KeyCode.from_config_str nameMap key_spanned.value with
    | none =>
      let (bs, issues) := build_bindings nameMap strategy_names content rest seen
      (bs, ConfigIssue.unknown_key key_spanned.span key_spanned.value :: issues)
    | some key_code =>
      match AList.lookup seen key_code with
      | some original_span =>
        let (bs, issues) := build_bindings nameMap strategy_names content rest seen
        (bs, ConfigIssue.duplicate_binding key_spanned.span
          key_code.display_name original_span content :: issues)
      | none =>
        let seen' := AList.insert seen key_code key_spanned.span
        let strategyIssues :=
          match binding.strategy with
          | some strategy_ref =>
            if strategy_names.contains strategy_ref.value then []
            else [ConfigIssue.undefined_strategy strategy_ref.span
              strategy_ref.value strategy_names]
          | none => []
        let (bs, issues) := build_bindings nameMap strategy_names content rest seen'
        ((key_code, binding) :: bs, strategyIssues ++ issues)

/-- Strategy instantiation in `build_runtime` (config/mod.rs:415-427).  The
source destructures `StrategyConfig::GatedHold` without its `diverts` field
and builds a `GatedHoldConfig` without one, so the parsed diverts are
dropped: the constructed strategy has an empty divert table. -/
def instantiate_strategies (strategies : List (SpannedString × StrategyConfig)) :
    List (String × GatedHoldStrategy) :=
  strategies.map fun p =>
    match p.2 with
    | StrategyConfig.gatedHold initial_hold_ms repeat_window_ms _ =>
      (p.1.value, GatedHoldStrategy.new
        { initial_hold_ms := initial_hold_ms
          repeat_window_ms := repeat_window_ms
          diverts := [] })

/-- `build_runtime` (config/mod.rs:352-433). -/
def build_runtime (nameMap : List (String × Nat)) (content : List Char)
    (cfg : Config) : BuildOut :=
  let strategy_names := cfg.strategies.map fun p => p.1.value
  let (bindings, issues) :=
    build_bindings nameMap strategy_names content cfg.bindings []
  { bindings := bindings
    strategies := instantiate_strategies cfg.strategies
    issues := issues }

/-- `parse_and_build` (config/mod.rs:124-145) after the TOML parse: the
issues pushed while parsing the tables (`parse_table` and its helpers) are
`parseIssues`; `build_runtime` appends its own; the result is `Ok` iff no
issue was collected, and otherwise the single grouped validation error. -/
def parse_and_build (nameMap : List (String × Nat)) (source_name : String)
    (content : List Char) (cfg : Config) (parseIssues : List ConfigIssue) :
    Except ConfigValidationError (Config × BuildOut) :=
  let out := build_runtime nameMap content cfg
  let issues := parseIssues ++ out.issues
  if issues = [] then Except.ok (cfg, out)
  else Except.error (ConfigValidationError.new source_name issues)

/-- C5 (code bug): `parse_action` rejects the three documented volume tokens
(`volume_up`, `volume_down`, `volume_mute`) while accepting the other eight,
even though the very same strings deserialize to the volume `Action`
variants on the conditional-rule path (the serde-derived snake_case
deserialization of `Action`), and no `parse_action` result ever is a volume
variant. -/
theorem parse_action_rejects_volume_tokens :
    parse_action "volume_up" = Except.error "unknown action 'volume_up'" ∧
    parse_action "volume_down" = Except.error "unknown action 'volume_down'" ∧
    parse_action "volume_mute" = Except.error "unknown action 'volume_mute'" ∧
    Action.from_snake_case "volume_up" = some Action.volumeUp ∧
    Action.from_snake_case "volume_down" = some Action.volumeDown ∧
    Action.from_snake_case "volume_mute" = some Action.volumeMute ∧
    parse_action "media_play_pause" = Except.ok Action.mediaPlayPause ∧
    parse_action "media_next" = Except.ok Action.mediaNext ∧
    parse_action "media_previous" = Except.ok Action.mediaPrevious ∧
    parse_action "media_stop" = Except.ok Action.mediaStop ∧
    parse_action "browser_back" = Except.ok Action.browserBack ∧
    parse_action "browser_forward" = Except.ok Action.browserForward ∧
    parse_action "passthrough" = Except.ok Action.passthrough ∧
    parse_action "block" = Except.ok Action.block ∧
    (∀ s a, parse_action s = Except.ok a → a ≠ Action.volumeUp ∧
      a ≠ Action.volumeDown ∧ a ≠ Action.volumeMute) := by
  refine ⟨rfl, rfl, rfl, rfl, rfl, rfl, rfl, rfl, rfl, rfl, rfl, rfl, rfl, rfl, ?_⟩
  intro s a h
  unfold parse_action at h
  split at h
  all_goals first
  | (cases h; exact ⟨by decide, by decide, by decide⟩)
  | exact Except.noConfusion h

/-- C4 (code bug): every strategy instantiated by `build_runtime` has an
empty divert table and therefore empty `subscriptions()` — the parsed
`diverts` of the strategy config are dropped — so no divert event id is ever
advertised, and no `subscriptions` index exists on `RuntimeConfig` at all. -/
theorem build_runtime_drops_diverts (nameMap : List (String × Nat))
    (content : List Char) (cfg : Config) (name : String)
    (st : GatedHoldStrategy)
    (h : AList.lookup (build_runtime nameMap content cfg).strategies name
      = some st) :
    st.subscriptions = [] ∧ st.config.diverts = [] := by
  have hmem := AList.mem_of_lookup_eq_some h
  simp only [build_runtime] at hmem
  simp only [instantiate_strategies, List.mem_map] at hmem
  obtain ⟨p, _, hp⟩ := hmem
  have hst : GatedHoldStrategy.new
      { initial_hold_ms := p.2.1, repeat_window_ms := p.2.2, diverts := [] }
      = st := congrArg Prod.snd hp
  rw [← hst]
  exact ⟨rfl, rfl⟩

/-- Witness for C4: a config declaring a gated-hold strategy with a
`scroll_up → volume_up` divert yields a built strategy that advertises no
subscriptions. -/
theorem build_runtime_drops_diverts_witness :
    AList.lookup (build_runtime [] []
        ⟨[(⟨"s", ⟨0, 1⟩⟩, StrategyConfig.gatedHold 150 2000
            [("scroll_up", "volume_up")])], []⟩).strategies "s"
      = some (GatedHoldStrategy.new
          { initial_hold_ms := 150, repeat_window_ms := 2000, diverts := [] }) ∧
    (GatedHoldStrategy.new
        { initial_hold_ms := 150, repeat_window_ms := 2000,
          diverts := [] }).subscriptions = [] := by
  refine ⟨rfl, ?_⟩
  exact (build_runtime_drops_diverts [] []
    ⟨[(⟨"s", ⟨0, 1⟩⟩, StrategyConfig.gatedHold 150 2000
        [("scroll_up", "volume_up")])], []⟩ "s"
    (GatedHoldStrategy.new
      { initial_hold_ms := 150, repeat_window_ms := 2000, diverts := [] })
    rfl).1

/-- C8 counterexample: bindings live in a `HashMap`, so `build_runtime` may
visit them in an order different from source order.  With the two colliding
specifiers `"124"` (source line 4) and `"0x7C"` (source line 2) visited in
that order, the single duplicate diagnostic is attached to the span of the
EARLIER source definition (offset 3, line 2) and its help names the LATER
definition's line 4 — the opposite of the claim. -/
theorem duplicate_binding_source_order_counterexample :
    (build_runtime [] ("ab\ncd\nef\ngh\n".data)
        ⟨[], [(⟨"124", ⟨9, 12⟩⟩, ⟨ActionSpec.simple Action.block, none⟩),
          (⟨"0x7C", ⟨3, 7⟩⟩, ⟨ActionSpec.simple Action.block, none⟩)]⟩).issues.length
      = 1 ∧
    ((build_runtime [] ("ab\ncd\nef\ngh\n".data)
        ⟨[], [(⟨"124", ⟨9, 12⟩⟩, ⟨ActionSpec.simple Action.block, none⟩),
          (⟨"0x7C", ⟨3, 7⟩⟩, ⟨ActionSpec.simple Action.block,
            none⟩)]⟩).issues.head?).map ConfigIssue.span = some ⟨3, 7⟩ ∧
    (⟨3, 7⟩ : Span) ≠ ⟨9, 12⟩ ∧
    ((build_runtime [] ("ab\ncd\nef\ngh\n".data)
        ⟨[], [(⟨"124", ⟨9, 12⟩⟩, ⟨ActionSpec.simple Action.block, none⟩),
          (⟨"0x7C", ⟨3, 7⟩⟩, ⟨ActionSpec.simple Action.block,
            none⟩)]⟩).issues.head?).bind ConfigIssue.help
      = some "first defined at line 4" ∧
    "first defined at line 4" ≠ "first defined at line 2" := by
  exact ⟨rfl, rfl, by decide, rfl, by decide⟩

/-- C8 amended: for a config whose bindings map iterates as exactly two
entries resolving to the same `KeyCode` (neither referencing a strategy),
`build_runtime` collects exactly one duplicate-binding diagnostic; it is
attached to the span of the entry visited second in map-iteration order —
which need not be the later one in the source — and its help names the
source line of the entry visited first. -/
theorem duplicate_binding_amended (nameMap : List (String × Nat))
    (content : List Char) (k1 k2 : SpannedString) (b1 b2 : Binding)
    (c : KeyCode) (strategies : List (SpannedString × StrategyConfig))
    (h1 : KeyCode.from_config_str nameMap k1.value = some c)
    (h2 : KeyCode.from_config_str nameMap k2.value = some c)
    (hs1 : b1.strategy = none) (hs2 : b2.strategy = none) :
    (build_runtime nameMap content ⟨strategies, [(k1, b1), (k2, b2)]⟩).issues
      = [ConfigIssue.duplicate_binding k2.span c.display_name k1.span content] ∧
    (ConfigIssue.duplicate_binding k2.span c.display_name k1.span
        content).span = k2.span ∧
    (ConfigIssue.duplicate_binding k2.span c.display_name k1.span
        content).help = some ("first defined at line "
      ++ toString (byte_offset_to_line content k1.span.start)) := by
  refine ⟨?_, rfl, rfl⟩
  simp only [build_runtime, build_bindings, h1, h2, hs1, hs2,
    AList.lookup, AList.insert]
  simp

/-- Witness for the amended C8: the same two specifiers visited in source
order; the diagnostic sits on the later definition (offset 9, line 4) and
the help names line 2. -/
theorem duplicate_binding_amended_witness :
    KeyCode.from_config_str [] "0x7C" = some ⟨124⟩ ∧
    KeyCode.from_config_str [] "124" = some ⟨124⟩ ∧
    (build_runtime [] ("ab\ncd\nef\ngh\n".data)
        ⟨[], [(⟨"0x7C", ⟨3, 7⟩⟩, ⟨ActionSpec.simple Action.block, none⟩),
          (⟨"124", ⟨9, 12⟩⟩, ⟨ActionSpec.simple Action.block, none⟩)]⟩).issues
      = [ConfigIssue.duplicate_binding ⟨9, 12⟩ (KeyCode.display_name ⟨124⟩)
          ⟨3, 7⟩ ("ab\ncd\nef\ngh\n".data)] := by
  refine ⟨by decide, by decide, ?_⟩
  exact (duplicate_binding_amended [] ("ab\ncd\nef\ngh\n".data)
    ⟨"0x7C", ⟨3, 7⟩⟩ ⟨"124", ⟨9, 12⟩⟩
    ⟨ActionSpec.simple Action.block, none⟩ ⟨ActionSpec.simple Action.block, none⟩
    ⟨124⟩ [] (by decide) (by decide) rfl rfl).1

/-! Spec-side counts of independent validation problems, written from the
spec's validation rules (§4.4): one per unresolvable key, one per binding
whose (resolvable) code was already claimed by an earlier-visited binding,
and one per first-visited resolvable binding referencing an undefined
strategy. -/

/-- Number of bindings whose key specifier does not resolve. -/
def count_unknown_keys (nameMap : List (String × Nat))
    (bindings : List (SpannedString × Binding)) : Nat :=
  (bindings.filter fun p =>
    KeyCode.from_config_str nameMap p.1.value = none).length

/-- Number of bindings whose resolved code collides with an earlier-visited
binding's code (`seen` is the set of codes already claimed). -/
def count_duplicate_bindings (nameMap : List (String × Nat)) :
    List (SpannedString × Binding) → List KeyCode → Nat
  | [], _ => 0
  | (k, _) :: rest, seen =>
    match KeyCode.from_config_str nameMap k.value with
    | none => count_duplicate_bindings nameMap rest seen
    | some c =>
      if c ∈ seen then 1 + count_duplicate_bindings nameMap rest seen
      else count_duplicate_bindings nameMap rest (c :: seen)

/-- Number of first-visited resolvable bindings referencing an undefined
strategy. -/
def count_dangling_refs (nameMap : List (String × Nat))
    (strategy_names : List String) :
    List (SpannedString × Binding) → List KeyCode → Nat
  | [], _ => 0
  | (k, b) :: rest, seen =>
    match KeyCode.from_config_str nameMap k.value with
    | none => count_dangling_refs nameMap strategy_names rest seen
    | some c =>
      if c ∈ seen then count_dangling_refs nameMap strategy_names rest seen
      else
        (match b.strategy with
          | some r => if strategy_names.contains r.value then 0 else 1
          | none => 0) + count_dangling_refs nameMap strategy_names rest (c :: seen)

theorem count_unknown_keys_cons (nameMap : List (String × Nat))
    (k : SpannedString) (b : Binding) (rest : List (SpannedString × Binding)) :
    count_unknown_keys nameMap ((k, b) :: rest)
      = (if KeyCode.from_config_str nameMap k.value = none then 1 else 0)
        + count_unknown_keys nameMap rest := by
  by_cases hk : KeyCode.from_config_str nameMap k.value = none
  · simp [count_unknown_keys, List.filter_cons, hk]
    omega
  · simp [count_unknown_keys, List.filter_cons, hk]

theorem count_duplicate_bindings_cons_none (nameMap : List (String × Nat))
    (k : SpannedString) (b : Binding) (rest : List (SpannedString × Binding))
    (seen : List KeyCode)
    (hk : KeyCode.from_config_str nameMap k.value = none) :
    count_duplicate_bindings nameMap ((k, b) :: rest) seen
      = count_duplicate_bindings nameMap rest seen := by
  simp [count_duplicate_bindings, hk]

theorem count_duplicate_bindings_cons_some (nameMap : List (String × Nat))
    (k : SpannedString) (b : Binding) (rest : List (SpannedString × Binding))
    (seen : List KeyCode) (c : KeyCode)
    (hk : KeyCode.from_config_str nameMap k.value = some c) :
    count_duplicate_bindings nameMap ((k, b) :: rest) seen
      = if c ∈ seen then 1 + count_duplicate_bindings nameMap rest seen
        else count_duplicate_bindings nameMap rest (c :: seen) := by
  simp [count_duplicate_bindings, hk]

theorem count_dangling_refs_cons_none (nameMap : List (String × Nat))
    (strategy_names : List String) (k : SpannedString) (b : Binding)
    (rest : List (SpannedString × Binding)) (seen : List KeyCode)
    (hk : KeyCode.from_config_str nameMap k.value = none) :
    count_dangling_refs nameMap strategy_names ((k, b) :: rest) seen
      = count_dangling_refs nameMap strategy_names rest seen := by
  simp [count_dangling_refs, hk]

theorem count_dangling_refs_cons_some (nameMap : List (String × Nat))
    (strategy_names : List String) (k : SpannedString) (b : Binding)
    (rest : List (SpannedString × Binding)) (seen : List KeyCode) (c : KeyCode)
    (hk : KeyCode.from_config_str nameMap k.value = some c) :
    count_dangling_refs nameMap strategy_names ((k, b) :: rest) seen
      = if c ∈ seen then count_dangling_refs nameMap strategy_names rest seen
        else
          (match b.strategy with
            | some r => if strategy_names.contains r.value then 0 else 1
            | none => 0)
          + count_dangling_refs nameMap strategy_names rest (c :: seen) := by
  simp [count_dangling_refs, hk]

theorem build_bindings_cons_unknown (nameMap : List (String × Nat))
    (strategy_names : List String) (content : List Char) (k : SpannedString)
    (b : Binding) (rest : List (SpannedString × Binding))
    (seen : List (KeyCode × Span))
    (hk : KeyCode.from_config_str nameMap k.value = none) :
    build_bindings nameMap strategy_names content ((k, b) :: rest) seen
      = ((build_bindings nameMap strategy_names content rest seen).1,
        ConfigIssue.unknown_key k.span k.value
          :: (build_bindings nameMap strategy_names content rest seen).2) := by
  simp [build_bindings, hk]

theorem build_bindings_cons_dup (nameMap : List (String × Nat))
    (strategy_names : List String) (content : List Char) (k : SpannedString)
    (b : Binding) (rest : List (SpannedString × Binding))
    (seen : List (KeyCode × Span)) (c : KeyCode) (original_span : Span)
    (hk : KeyCode.from_config_str nameMap k.value = some c)
    (hl : AList.lookup seen c = some original_span) :
    build_bindings nameMap strategy_names content ((k, b) :: rest) seen
      = ((build_bindings nameMap strategy_names content rest seen).1,
        ConfigIssue.duplicate_binding k.span c.display_name original_span content
          :: (build_bindings nameMap strategy_names content rest seen).2) := by
  simp [build_bindings, hk, hl]

theorem build_bindings_cons_fresh (nameMap : List (String × Nat))
    (strategy_names : List String) (content : List Char) (k : SpannedString)
    (b : Binding) (rest : List (SpannedString × Binding))
    (seen : List (KeyCode × Span)) (c : KeyCode)
    (hk : KeyCode.from_config_str nameMap k.value = some c)
    (hl : AList.lookup seen c = none) :
    build_bindings nameMap strategy_names content ((k, b) :: rest) seen
      = ((c, b) :: (build_bindings nameMap strategy_names content rest
            (AList.insert seen c k.span)).1,
        (match b.strategy with
          | some strategy_ref =>
            if strategy_names.contains strategy_ref.value then []
            else [ConfigIssue.undefined_strategy strategy_ref.span
              strategy_ref.value strategy_names]
          | none => [])
        ++ (build_bindings nameMap strategy_names content rest
            (AList.insert seen c k.span)).2) := by
  simp [build_bindings, hk, hl]

theorem count_duplicate_bindings_congr (nameMap : List (String × Nat))
    (bs : List (SpannedString × Binding)) :
    ∀ s1 s2 : List KeyCode, (∀ x, x ∈ s1 ↔ x ∈ s2) →
      count_duplicate_bindings nameMap bs s1
        = count_duplicate_bindings nameMap bs s2 := by
  induction bs with
  | nil => intro s1 s2 _; rfl
  | cons p rest ih =>
    intro s1 s2 hmem
    obtain ⟨k, b⟩ := p
    cases hk : KeyCode.from_config_str nameMap k.value with
    | none =>
      rw [count_duplicate_bindings_cons_none nameMap k b rest s1 hk,
        count_duplicate_bindings_cons_none nameMap k b rest s2 hk]
      exact ih s1 s2 hmem
    | some c =>
      rw [count_duplicate_bindings_cons_some nameMap k b rest s1 c hk,
        count_duplicate_bindings_cons_some nameMap k b rest s2 c hk]
      by_cases hc : c ∈ s1
      · rw [if_pos hc, if_pos ((hmem c).1 hc), ih s1 s2 hmem]
      · rw [if_neg hc, if_neg (fun hx => hc ((hmem c).2 hx))]
        refine ih _ _ ?_
        intro x
        simp only [List.mem_cons]
        rw [hmem x]

theorem count_dangling_refs_congr (nameMap : List (String × Nat))
    (strategy_names : List String) (bs : List (SpannedString × Binding)) :
    ∀ s1 s2 : List KeyCode, (∀ x, x ∈ s1 ↔ x ∈ s2) →
      count_dangling_refs nameMap strategy_names bs s1
        = count_dangling_refs nameMap strategy_names bs s2 := by
  induction bs with
  | nil => intro s1 s2 _; rfl
  | cons p rest ih =>
    intro s1 s2 hmem
    obtain ⟨k, b⟩ := p
    cases hk : KeyCode.from_config_str nameMap k.value with
    | none =>
      rw [count_dangling_refs_cons_none nameMap strategy_names k b rest s1 hk,
        count_dangling_refs_cons_none nameMap strategy_names k b rest s2 hk]
      exact ih s1 s2 hmem
    | some c =>
      rw [count_dangling_refs_cons_some nameMap strategy_names k b rest s1 c hk,
        count_dangling_refs_cons_some nameMap strategy_names k b rest s2 c hk]
      by_cases hc : c ∈ s1
      · rw [if_pos hc, if_pos ((hmem c).1 hc), ih s1 s2 hmem]
      · rw [if_neg hc, if_neg (fun hx => hc ((hmem c).2 hx))]
        congr 1
        refine ih _ _ ?_
        intro x
        simp only [List.mem_cons]
        rw [hmem x]

theorem build_bindings_issues_length (nameMap : List (String × Nat))
    (strategy_names : List String) (content : List Char) :
    ∀ (bs : List (SpannedString × Binding)) (seen : List (KeyCode × Span)),
      (build_bindings nameMap strategy_names content bs seen).2.length
        = count_unknown_keys nameMap bs
          + count_duplicate_bindings nameMap bs (AList.keys seen)
          + count_dangling_refs nameMap strategy_names bs (AList.keys seen) := by
  intro bs
  induction bs with
  | nil => intro seen; rfl
  | cons p rest ih =>
    intro seen
    obtain ⟨k, b⟩ := p
    cases hk : KeyCode.from_config_str nameMap k.value with
    | none =>
      rw [build_bindings_cons_unknown nameMap strategy_names content k b rest
          seen hk,
        count_unknown_keys_cons, if_pos hk,
        count_duplicate_bindings_cons_none nameMap k b rest _ hk,
        count_dangling_refs_cons_none nameMap strategy_names k b rest _ hk]
      simp only [List.length_cons, ih seen]
      omega
    | some c =>
      cases hl : AList.lookup seen c with
      | some original_span =>
        have hcmem : c ∈ AList.keys seen :=
          (AList.lookup_isSome_iff_mem_keys seen c).1 (by rw [hl]; rfl)
        rw [build_bindings_cons_dup nameMap strategy_names content k b rest
            seen c original_span hk hl,
          count_unknown_keys_cons, if_neg (by simp [hk]),
          count_duplicate_bindings_cons_some nameMap k b rest _ c hk,
          if_pos hcmem,
          count_dangling_refs_cons_some nameMap strategy_names k b rest _ c hk,
          if_pos hcmem]
        simp only [List.length_cons, ih seen]
        omega
      | none =>
        have hcnot : c ∉ AList.keys seen := by
          intro hx
          have := (AList.lookup_isSome_iff_mem_keys seen c).2 hx
          rw [hl] at this
          exact Bool.noConfusion this
        have hkeys : ∀ x, x ∈ AList.keys (AList.insert seen c k.span)
            ↔ x ∈ c :: AList.keys seen := by
          intro x
          rw [AList.mem_keys_insert, List.mem_cons]
        have hrec := ih (AList.insert seen c k.span)
        rw [count_duplicate_bindings_congr nameMap rest _ _ hkeys,
          count_dangling_refs_congr nameMap strategy_names rest _ _ hkeys]
          at hrec
        rw [build_bindings_cons_fresh nameMap strategy_names content k b rest
            seen c hk hl,
          count_unknown_keys_cons, if_neg (by simp [hk]),
          count_duplicate_bindings_cons_some nameMap k b rest _ c hk,
          if_neg hcnot,
          count_dangling_refs_cons_some nameMap strategy_names k b rest _ c hk,
          if_neg hcnot]
        cases hb : b.strategy with
        | none =>
          simp only [List.nil_append, hrec]
          omega
        | some r =>
          by_cases hr : strategy_names.contains r.value
          · simp only [hr, if_true, List.nil_append, List.length_append,
              List.length_cons, hrec]
            omega
          · simp only [hr, Bool.false_eq_true, if_false, List.length_append,
              List.length_cons, List.length_nil, hrec]
            omega

theorem length_insertBySpanStart (x : ConfigIssue) (l : List ConfigIssue) :
    (insertBySpanStart x l).length = l.length + 1 := by
  induction l with
  | nil => rfl
  | cons y rest ih =>
    dsimp only [insertBySpanStart]
    split
    · rfl
    · simp [ih]

theorem mem_insertBySpanStart (x : ConfigIssue) (l : List ConfigIssue)
    (z : ConfigIssue) : z ∈ insertBySpanStart x l ↔ z = x ∨ z ∈ l := by
  induction l with
  | nil => simp [insertBySpanStart]
  | cons y rest ih =>
    dsimp only [insertBySpanStart]
    split
    · simp
    · simp only [List.mem_cons, ih]
      tauto

theorem sorted_insertBySpanStart (x : ConfigIssue) (l : List ConfigIssue)
    (h : List.Pairwise (fun a b => a.span.start ≤ b.span.start) l) :
    List.Pairwise (fun a b => a.span.start ≤ b.span.start)
      (insertBySpanStart x l) := by
  induction l with
  | nil => simp [insertBySpanStart]
  | cons y rest ih =>
    dsimp only [insertBySpanStart]
    rcases List.pairwise_cons.1 h with ⟨hy, hrest⟩
    split
    · refine List.pairwise_cons.2 ⟨?_, h⟩
      intro z hz
      rcases List.mem_cons.1 hz with hz | hz
      · subst hz
        omega
      · have := hy z hz
        omega
    · refine List.pairwise_cons.2 ⟨?_, ih hrest⟩
      intro z hz
      rcases (mem_insertBySpanStart x rest z).1 hz with hz | hz
      · subst hz
        omega
      · exact hy z hz

theorem length_sortBySpanStart (l : List ConfigIssue) :
    (sortBySpanStart l).length = l.length := by
  have haux : ∀ (l acc : List ConfigIssue),
      (l.foldl (fun acc x => insertBySpanStart x acc) acc).length
        = acc.length + l.length := by
    intro l
    induction l with
    | nil => intro acc; rfl
    | cons x rest ih =>
      intro acc
      rw [List.foldl_cons, ih, length_insertBySpanStart, List.length_cons]
      omega
  simpa using haux l []

theorem sorted_sortBySpanStart (l : List ConfigIssue) :
    List.Pairwise (fun a b => a.span.start ≤ b.span.start)
      (sortBySpanStart l) := by
  have haux : ∀ (l acc : List ConfigIssue),
      List.Pairwise (fun a b => a.span.start ≤ b.span.start) acc →
      List.Pairwise (fun a b => a.span.start ≤ b.span.start)
        (l.foldl (fun acc x => insertBySpanStart x acc) acc) := by
    intro l
    induction l with
    | nil => intro acc h; exact h
    | cons x rest ih =>
      intro acc h
      rw [List.foldl_cons]
      exact ih _ (sorted_insertBySpanStart x acc h)
  exact haux l [] List.Pairwise.nil

/-- C9: for a configuration carrying any number of independent validation
problems (unresolvable keys, duplicate codes, dangling strategy references,
plus whatever the parse stage collected), the loader returns one grouped
validation error whose diagnostics number exactly the problems — nothing is
dropped by short-circuiting — and are ordered by nondecreasing span start. -/
theorem validation_diagnostics_complete (nameMap : List (String × Nat))
    (source_name : String) (content : List Char) (cfg : Config)
    (parseIssues : List ConfigIssue)
    (hne : parseIssues ++ (build_runtime nameMap content cfg).issues ≠ []) :
    ∃ e, parse_and_build nameMap source_name content cfg parseIssues
        = Except.error e ∧
      e.issues.length = parseIssues.length
        + count_unknown_keys nameMap cfg.bindings
        + count_duplicate_bindings nameMap cfg.bindings []
        + count_dangling_refs nameMap (cfg.strategies.map fun p => p.1.value)
            cfg.bindings [] ∧
      List.Pairwise (fun a b => a.spanOffset ≤ b.spanOffset) e.issues := by
  refine ⟨ConfigValidationError.new source_name
    (parseIssues ++ (build_runtime nameMap content cfg).issues), ?_, ?_, ?_⟩
  · unfold parse_and_build
    rw [if_neg hne]
  · dsimp only [ConfigValidationError.new]
    rw [List.length_map, length_sortBySpanStart, List.length_append]
    have : (build_runtime nameMap content cfg).issues.length
        = count_unknown_keys nameMap cfg.bindings
          + count_duplicate_bindings nameMap cfg.bindings []
          + count_dangling_refs nameMap (cfg.strategies.map fun p => p.1.value)
              cfg.bindings [] := by
      dsimp only [build_runtime]
      exact build_bindings_issues_length nameMap _ content cfg.bindings []
    omega
  · dsimp only [ConfigValidationError.new]
    refine List.Pairwise.map _ ?_ (sorted_sortBySpanStart _)
    intro a b hab
    exact hab

/-- Witness for C9: two unresolvable key names produce exactly two
diagnostics, sorted by span start. -/
theorem validation_diagnostics_complete_witness :
    (([] : List ConfigIssue) ++ (build_runtime [] []
        (Config.mk []
          [(⟨"zzz", ⟨0, 3⟩⟩, ⟨ActionSpec.simple Action.block, none⟩),
            (⟨"yyy", ⟨5, 8⟩⟩, ⟨ActionSpec.simple Action.block,
              none⟩)])).issues ≠ []) ∧
    (∃ e, parse_and_build [] "test.toml" []
        (Config.mk []
          [(⟨"zzz", ⟨0, 3⟩⟩, ⟨ActionSpec.simple Action.block, none⟩),
            (⟨"yyy", ⟨5, 8⟩⟩, ⟨ActionSpec.simple Action.block, none⟩)]) []
        = Except.error e ∧
      e.issues.length = ([] : List ConfigIssue).length
        + count_unknown_keys []
            (Config.mk []
              [(⟨"zzz", ⟨0, 3⟩⟩, ⟨ActionSpec.simple Action.block, none⟩),
                (⟨"yyy", ⟨5, 8⟩⟩, ⟨ActionSpec.simple Action.block,
                  none⟩)]).bindings
        + count_duplicate_bindings []
            (Config.mk []
              [(⟨"zzz", ⟨0, 3⟩⟩, ⟨ActionSpec.simple Action.block, none⟩),
                (⟨"yyy", ⟨5, 8⟩⟩, ⟨ActionSpec.simple Action.block,
                  none⟩)]).bindings []
        + count_dangling_refs []
            ((Config.mk []
              [(⟨"zzz", ⟨0, 3⟩⟩, ⟨ActionSpec.simple Action.block, none⟩),
                (⟨"yyy", ⟨5, 8⟩⟩, ⟨ActionSpec.simple Action.block,
                  none⟩)]).strategies.map fun p => p.1.value)
            (Config.mk []
              [(⟨"zzz", ⟨0, 3⟩⟩, ⟨ActionSpec.simple Action.block, none⟩),
                (⟨"yyy", ⟨5, 8⟩⟩, ⟨ActionSpec.simple Action.block,
                  none⟩)]).bindings [] ∧
      List.Pairwise (fun a b => a.spanOffset ≤ b.spanOffset) e.issues) :=
  ⟨by decide,
   validation_diagnostics_complete [] "test.toml" []
    (Config.mk []
      [(⟨"zzz", ⟨0, 3⟩⟩, ⟨ActionSpec.simple Action.block, none⟩),
        (⟨"yyy", ⟨5, 8⟩⟩, ⟨ActionSpec.simple Action.block, none⟩)]) []
    (by decide)⟩

/-! The event dispatcher `handle_event` (src/main.rs:89-177).  Strategy
instances are gated-hold strategies — the only `KeyStrategy` implementation.
`subscriptions` is the index `handle_event` reads at main.rs:97
(`config.subscriptions`); the `RuntimeConfig` built by config/mod.rs has no
such field (see the C4 finding), so the index is carried here as the
dispatcher's own input.  Window lookup and glob matching are platform/crate
collaborators passed as parameters. -/

/-- The dispatcher's view of the runtime configuration, as read by
`handle_event` (main.rs:97, 136, 157): key bindings, named strategy
instances, and the event-id subscription index. -/
structure DispatchConfig where
  bindings : List (KeyCode × Binding)
  strategies : List (String × GatedHoldStrategy)
  subscriptions : List (InputEventId × List String)
deriving DecidableEq

/-- `RuntimeConfig::resolve_action` (config/mod.rs:65-80): the first rule
whose condition is empty or matches the window wins; none matching is an
implicit passthrough. -/
def resolve_action (globMatch : String → String → Bool)
    (bindings : List (KeyCode × Binding)) (key : KeyCode)
    (window : WindowInfo) : Option Action :=
  match AList.lookup bindings key with
  | none => none
  | some binding =>
    match binding.action with
    | ActionSpec.simple action => some action
    | ActionSpec.conditional rules =>
      (rules.find? fun rule =>
        rule.condition.is_empty || rule.condition.window.matches globMatch window).map
        fun rule => rule.action

/-- The subscriber loop of `handle_event` (main.rs:106-118): process each
subscribed strategy in order with the dummy `Block` context action,
returning at the first `Block`.  Yields the updated strategy table and
whether some subscriber blocked. -/
def runSubscribers (event : InputEvent) (now : Nat) :
    List String → List (String × GatedHoldStrategy) →
    List (String × GatedHoldStrategy) × Bool
  | [], strategies => (strategies, false)
  | n :: rest, strategies =>
    match AList.lookup strategies n with
    | none => runSubscribers event now rest strategies
    | some st =>
      let r := st.process event now Action.block
      let strategies' := AList.insert strategies n r.1
      if r.2.1 = EventResponse.block then (strategies', true)
      else runSubscribers event now rest strategies'

/-- `handle_event` (main.rs:89-177).  Returns the updated configuration (the
strategies' interior mutability), the response, and the directly executed
actions. -/
def handle_event (globMatch : String → String → Bool) (cfg : DispatchConfig)
    (event : InputEvent) (now : Nat) (window : WindowInfo) :
    DispatchConfig × EventResponse × List Action :=
  let names := (AList.lookup cfg.subscriptions event.id).getD []
  let sub := runSubscribers event now names cfg.strategies
  let cfg1 : DispatchConfig := { cfg with strategies := sub.1 }
  if sub.2 then (cfg1, EventResponse.block, [])
  else
    match event with
    | InputEvent.scroll _ => (cfg1, EventResponse.passthrough, [])
    | InputEvent.key k down =>
      match AList.lookup cfg1.bindings k with
      | none => (cfg1, EventResponse.passthrough, [])
      | some binding =>
        match resolve_action globMatch cfg1.bindings k window with
        | none => (cfg1, EventResponse.passthrough, [])
        | some action =>
          match action.as_response with
          | some r => (cfg1, r, [])
          | none =>
            match binding.strategy with
            | some strategy_ref =>
              match AList.lookup cfg1.strategies strategy_ref.value with
              | some st =>
                let r := st.process event now action
                ({ cfg1 with strategies :=
                    AList.insert cfg1.strategies strategy_ref.value r.1 },
                  r.2.1, r.2.2.executed)
              | none => (cfg1, EventResponse.block, if down then [action] else [])
            | none => (cfg1, EventResponse.block, if down then [action] else [])

/-- C1 counterexample: two strategies `s1`, `s2` subscribe to `scroll_up`,
each holding an `Active` key.  The dispatcher returns at `s1`'s `Block`:
`s2`'s stored state is unchanged, although processing the event on `s2`
would have changed it (its key would be `Diverted`) — so the second
subscriber did not observe the event. -/
theorem handle_event_shortcircuit_counterexample :
    (handle_event (fun _ _ => false)
        ⟨[], [("s1", ⟨⟨50, 200, [(InputEventId.scroll true, Action.volumeUp)]⟩,
            [("key_1", KeyState.active)], none, true, []⟩),
          ("s2", ⟨⟨50, 200, [(InputEventId.scroll true, Action.volumeUp)]⟩,
            [("key_2", KeyState.active)], none, true, []⟩)],
          [(InputEventId.scroll true, ["s1", "s2"])]⟩
        (InputEvent.scroll true) 0 ⟨"", "", ""⟩).2.1 = EventResponse.block ∧
    AList.lookup (handle_event (fun _ _ => false)
        ⟨[], [("s1", ⟨⟨50, 200, [(InputEventId.scroll true, Action.volumeUp)]⟩,
            [("key_1", KeyState.active)], none, true, []⟩),
          ("s2", ⟨⟨50, 200, [(InputEventId.scroll true, Action.volumeUp)]⟩,
            [("key_2", KeyState.active)], none, true, []⟩)],
          [(InputEventId.scroll true, ["s1", "s2"])]⟩
        (InputEvent.scroll true) 0 ⟨"", "", ""⟩).1.strategies "s2"
      = some ⟨⟨50, 200, [(InputEventId.scroll true, Action.volumeUp)]⟩,
          [("key_2", KeyState.active)], none, true, []⟩ ∧
    ((⟨⟨50, 200, [(InputEventId.scroll true, Action.volumeUp)]⟩,
        [("key_2", KeyState.active)], none, true,
        []⟩ : GatedHoldStrategy).process (InputEvent.scroll true) 0
          Action.block).1
      ≠ ⟨⟨50, 200, [(InputEventId.scroll true, Action.volumeUp)]⟩,
          [("key_2", KeyState.active)], none, true, []⟩ := by
  exact ⟨rfl, rfl, by decide⟩

theorem runSubscribers_cons_none (event : InputEvent) (now : Nat) (n : String)
    (rest : List String) (strategies : List (String × GatedHoldStrategy))
    (hst : AList.lookup strategies n = none) :
    runSubscribers event now (n :: rest) strategies
      = runSubscribers event now rest strategies := by
  simp [runSubscribers, hst]

theorem runSubscribers_cons_some (event : InputEvent) (now : Nat) (n : String)
    (rest : List String) (strategies : List (String × GatedHoldStrategy))
    (st : GatedHoldStrategy) (hst : AList.lookup strategies n = some st) :
    runSubscribers event now (n :: rest) strategies
      = if (st.process event now Action.block).2.1 = EventResponse.block then
          (AList.insert strategies n (st.process event now Action.block).1, true)
        else
          runSubscribers event now rest
            (AList.insert strategies n (st.process event now Action.block).1) := by
  by_cases hb : (st.process event now Action.block).2.1 = EventResponse.block
  · simp [runSubscribers, hst, hb]
  · simp [runSubscribers, hst, hb]

theorem runSubscribers_blocked_iff (event : InputEvent) (now : Nat) :
    ∀ (names : List String) (strategies : List (String × GatedHoldStrategy)),
      (∀ n ∈ names, (AList.lookup strategies n).isSome = true) → names.Nodup →
      ((runSubscribers event now names strategies).2 = true ↔
        ∃ n ∈ names, ∃ st, AList.lookup strategies n = some st ∧
          (st.process event now Action.block).2.1 = EventResponse.block) := by
  intro names
  induction names with
  | nil =>
    intro strategies _ _
    simp [runSubscribers]
  | cons n rest ih =>
    intro strategies hres hnd
    obtain ⟨st, hst⟩ : ∃ st, AList.lookup strategies n = some st := by
      have := hres n (List.mem_cons_self n rest)
      cases h : AList.lookup strategies n with
      | none => rw [h] at this; exact Bool.noConfusion this
      | some st => exact ⟨st, rfl⟩
    rw [runSubscribers_cons_some event now n rest strategies st hst]
    rcases List.nodup_cons.1 hnd with ⟨hnmem, hndrest⟩
    have hneq : ∀ m, m ∈ rest → n ≠ m := by
      intro m hm he
      subst he
      exact hnmem hm
    by_cases hb : (st.process event now Action.block).2.1 = EventResponse.block
    · rw [if_pos hb]
      constructor
      · intro _
        exact ⟨n, List.mem_cons_self n rest, st, hst, hb⟩
      · intro _
        rfl
    · rw [if_neg hb]
      have hres' : ∀ m ∈ rest,
          (AList.lookup (AList.insert strategies n
            (st.process event now Action.block).1) m).isSome = true := by
        intro m hm
        rw [AList.lookup_insert_ne _ _ _ _ (hneq m hm)]
        exact hres m (List.mem_cons_of_mem n hm)
      rw [ih _ hres' hndrest]
      constructor
      · rintro ⟨m, hm, stm, hstm, hbm⟩
        rw [AList.lookup_insert_ne _ _ _ _ (hneq m hm)] at hstm
        exact ⟨m, List.mem_cons_of_mem n hm, stm, hstm, hbm⟩
      · rintro ⟨m, hm, stm, hstm, hbm⟩
        rcases List.mem_cons.1 hm with hm | hm
        · subst hm
          rw [hst] at hstm
          cases hstm
          exact absurd hbm hb
        · refine ⟨m, hm, stm, ?_, hbm⟩
          rw [AList.lookup_insert_ne _ _ _ _ (hneq m hm)]
          exact hstm

theorem runSubscribers_untouched (event : InputEvent) (now : Nat) :
    ∀ (l1 : List String) (bk : String) (l2 : List String)
      (strategies : List (String × GatedHoldStrategy)),
      (∀ x ∈ l1, ∀ stx, AList.lookup strategies x = some stx →
        (stx.process event now Action.block).2.1 ≠ EventResponse.block) →
      (∀ stb, AList.lookup strategies bk = some stb →
        (stb.process event now Action.block).2.1 = EventResponse.block) →
      (AList.lookup strategies bk).isSome = true →
      (l1 ++ bk :: l2).Nodup →
      ∀ x ∈ l2,
        AList.lookup (runSubscribers event now (l1 ++ bk :: l2) strategies).1 x
          = AList.lookup strategies x := by
  intro l1
  induction l1 with
  | nil =>
    intro bk l2 strategies _ hbk hsome hnd x hx
    obtain ⟨stb, hstb⟩ : ∃ stb, AList.lookup strategies bk = some stb := by
      cases h : AList.lookup strategies bk with
      | none => rw [h] at hsome; exact Bool.noConfusion hsome
      | some stb => exact ⟨stb, rfl⟩
    rw [List.nil_append,
      runSubscribers_cons_some event now bk l2 strategies stb hstb,
      if_pos (hbk stb hstb)]
    rcases List.nodup_cons.1 hnd with ⟨hbkmem, _⟩
    refine AList.lookup_insert_ne _ _ _ _ ?_
    intro he
    subst he
    exact hbkmem hx
  | cons y l1' ih =>
    intro bk l2 strategies h1 hbk hsome hnd x hx
    rw [List.cons_append] at hnd ⊢
    rcases List.nodup_cons.1 hnd with ⟨hymem, hndrest⟩
    cases hy : AList.lookup strategies y with
    | none =>
      rw [runSubscribers_cons_none event now y _ strategies hy]
      exact ih bk l2 strategies
        (fun z hz stz hstz => h1 z (List.mem_cons_of_mem y hz) stz hstz)
        hbk hsome hndrest x hx
    | some sty =>
      have hnb := h1 y (List.mem_cons_self y l1') sty hy
      rw [runSubscribers_cons_some event now y _ strategies sty hy, if_neg hnb]
      have hyne : ∀ z, z ∈ l1' ++ bk :: l2 → y ≠ z := by
        intro z hz he
        subst he
        exact hymem hz
      have hx' : x ∈ l1' ++ bk :: l2 :=
        List.mem_append_right l1' (List.mem_cons_of_mem bk hx)
      have hstep := ih bk l2
        (AList.insert strategies y (sty.process event now Action.block).1)
        (fun z hz stz hstz => by
          rw [AList.lookup_insert_ne _ _ _ _
            (hyne z (List.mem_append_left _ hz))] at hstz
          exact h1 z (List.mem_cons_of_mem y hz) stz hstz)
        (fun stb hstb => by
          rw [AList.lookup_insert_ne _ _ _ _
            (hyne bk (List.mem_append_right l1' (List.mem_cons_self bk l2)))]
            at hstb
          exact hbk stb hstb)
        (by
          rw [AList.lookup_insert_ne _ _ _ _
            (hyne bk (List.mem_append_right l1' (List.mem_cons_self bk l2)))]
          exact hsome)
        hndrest x hx
      rw [hstep]
      exact AList.lookup_insert_ne _ _ _ _ (hyne x hx')

/-- C1 amended: when every subscribed strategy resolves, the dispatcher's
final response for the event is `Block` iff some subscribed strategy's
`process` (applied to its own pre-event state) returns `Block`; but the
subscribers are invoked in order only until the first `Block` — a subscriber
listed after the first blocker keeps its state untouched and does not
observe the event. -/
theorem handle_event_subscribers (globMatch : String → String → Bool)
    (cfg : DispatchConfig) (event : InputEvent) (now : Nat)
    (window : WindowInfo)
    (hne : (AList.lookup cfg.subscriptions event.id).getD [] ≠ [])
    (hres : ∀ n ∈ (AList.lookup cfg.subscriptions event.id).getD [],
      (AList.lookup cfg.strategies n).isSome = true)
    (hnd : ((AList.lookup cfg.subscriptions event.id).getD []).Nodup) :
    ((handle_event globMatch cfg event now window).2.1 = EventResponse.block ↔
      ∃ n ∈ (AList.lookup cfg.subscriptions event.id).getD [], ∃ st,
        AList.lookup cfg.strategies n = some st ∧
        (st.process event now Action.block).2.1 = EventResponse.block) ∧
    (∀ l1 bk l2, (AList.lookup cfg.subscriptions event.id).getD []
        = l1 ++ bk :: l2 →
      (∀ x ∈ l1, ∀ stx, AList.lookup cfg.strategies x = some stx →
        (stx.process event now Action.block).2.1 ≠ EventResponse.block) →
      (∀ stb, AList.lookup cfg.strategies bk = some stb →
        (stb.process event now Action.block).2.1 = EventResponse.block) →
      ∀ x ∈ l2,
        AList.lookup (handle_event globMatch cfg event now window).1.strategies x
          = AList.lookup cfg.strategies x) := by
  have hiff := runSubscribers_blocked_iff event now
    ((AList.lookup cfg.subscriptions event.id).getD []) cfg.strategies hres hnd
  constructor
  · constructor
    · intro hresp
      by_cases hsub : (runSubscribers event now
          ((AList.lookup cfg.subscriptions event.id).getD [])
          cfg.strategies).2 = true
      · exact hiff.1 hsub
      · cases event with
        | scroll u =>
          exfalso
          unfold handle_event at hresp
          rw [if_neg hsub] at hresp
          exact EventResponse.noConfusion hresp
        | key k down =>
          obtain ⟨n0, rest0, hnames⟩ :
              ∃ n0 rest0, (AList.lookup cfg.subscriptions
                (InputEvent.key k down).id).getD [] = n0 :: rest0 := by
            cases h : (AList.lookup cfg.subscriptions
                (InputEvent.key k down).id).getD [] with
            | nil => exact absurd h hne
            | cons a b => exact ⟨a, b, rfl⟩
          have hn0 := hres n0 (by rw [hnames]; exact List.mem_cons_self _ _)
          obtain ⟨st0, hst0⟩ : ∃ st0,
              AList.lookup cfg.strategies n0 = some st0 := by
            cases h : AList.lookup cfg.strategies n0 with
            | none => rw [h] at hn0; exact Bool.noConfusion hn0
            | some st0 => exact ⟨st0, rfl⟩
          exact ⟨n0, by rw [hnames]; exact List.mem_cons_self _ _, st0, hst0,
            GatedHoldStrategy.process_key_resp st0 k down now Action.block⟩
    · intro hex
      have hsub := hiff.2 hex
      unfold handle_event
      rw [if_pos hsub]
  · intro l1 bk l2 hsplit h1 hbk x hx
    have hbkmem : bk ∈ (AList.lookup cfg.subscriptions event.id).getD [] := by
      rw [hsplit]
      exact List.mem_append_right l1 (List.mem_cons_self bk l2)
    have hbksome : (AList.lookup cfg.strategies bk).isSome = true :=
      hres bk hbkmem
    obtain ⟨stb, hstb⟩ : ∃ stb, AList.lookup cfg.strategies bk = some stb := by
      cases h : AList.lookup cfg.strategies bk with
      | none => rw [h] at hbksome; exact Bool.noConfusion hbksome
      | some stb => exact ⟨stb, rfl⟩
    have hsub : (runSubscribers event now
        ((AList.lookup cfg.subscriptions event.id).getD [])
        cfg.strategies).2 = true :=
      hiff.2 ⟨bk, hbkmem, stb, hstb, hbk stb hstb⟩
    have huntouched := runSubscribers_untouched event now l1 bk l2
      cfg.strategies h1 hbk hbksome (hsplit ▸ hnd) x hx
    unfold handle_event
    rw [if_pos hsub, hsplit]
    exact huntouched

/-- Witness for the amended C1: one subscriber holding an `Active` key
blocks a subscribed `scroll_up`, so the dispatcher's response is `Block`. -/
theorem handle_event_subscribers_witness :
    ((AList.lookup (DispatchConfig.mk []
        [("s1", ⟨⟨50, 200, [(InputEventId.scroll true, Action.volumeUp)]⟩,
          [("key_1", KeyState.active)], none, true, []⟩)]
        [(InputEventId.scroll true, ["s1"])]).subscriptions
        (InputEvent.scroll true).id).getD [] ≠ []) ∧
    ((handle_event (fun _ _ => false)
        (DispatchConfig.mk []
          [("s1", ⟨⟨50, 200, [(InputEventId.scroll true, Action.volumeUp)]⟩,
            [("key_1", KeyState.active)], none, true, []⟩)]
          [(InputEventId.scroll true, ["s1"])])
        (InputEvent.scroll true) 0 ⟨"", "", ""⟩).2.1 = EventResponse.block) := by
  refine ⟨by decide, ?_⟩
  refine (handle_event_subscribers (fun _ _ => false)
    (DispatchConfig.mk []
      [("s1", ⟨⟨50, 200, [(InputEventId.scroll true, Action.volumeUp)]⟩,
        [("key_1", KeyState.active)], none, true, []⟩)]
      [(InputEventId.scroll true, ["s1"])])
    (InputEvent.scroll true) 0 ⟨"", "", ""⟩ (by decide) (by decide)
    (by decide)).1.2 ?_
  exact ⟨"s1", by decide,
    ⟨⟨50, 200, [(InputEventId.scroll true, Action.volumeUp)]⟩,
      [("key_1", KeyState.active)], none, true, []⟩, rfl, by decide⟩

end Rebinded
